import Mathlib

/-!
# Streaming file transfer: client encoder and server upload handler

A shallow embedding of `cmd/client/main.go` and `cmd/server/handlers.go`.

Conventions of the embedding.

* A Go `io.Reader` is a state machine: `Read` takes the state of the reader and
  the length of the caller's buffer `p`, and returns the bytes stored in
  `p[0:n]`, the error, and the next state.  `n` is the length of the returned
  byte list.
* A Go `io.Writer` is a state machine in the same way.
* Effects that Go performs on the outside world (sleeping, sending on a
  channel, creating a file, answering an HTTP request) are recorded in the
  state that is passed along.
* Loops of the standard library that run until a reader reports an error
  (`io.Copy`) take a fuel argument; running out of fuel is `none`.
* Go `int` values are unbounded here: every counter in the program is bounded by
  the number of bytes transferred.
* Code outside the repository is modelled from its documented behaviour:
  `io.Copy` is its read-write loop (the `ReaderFrom` and `WriterTo` shortcuts
  of the library copy the same bytes and return the same error), a
  `multipart.Reader` is the sequence of parts it returns, the
  `multipart.Writer` on the pipe is the sequence of frames it was asked to
  write, and `nursery.RunConcurrently` returns the error its tasks send.
  The two tasks of the inner `RunConcurrently` are run as one: every sample
  sent on `progression` is received by the task that feeds the progress bar.
* Log statements are left out.
-/

namespace Transfer

/-! ## Errors, readers, writers -/

/-- One byte of payload. -/
abbrev Byte := UInt8

/-- The bytes of a Go string given as text: its UTF-8 encoding. -/
def goBytes (s : String) : List Byte := s.toList.flatMap String.utf8EncodeChar

/-- The function `strings.HasPrefix(s, pre)`. -/
def stringsHasPrefix (s pre : String) : Bool := pre.toList.isPrefixOf s.toList

/-- Go `error` values that the program creates or tests for. -/
inductive GoError where
  /-- The sentinel `io.EOF`. -/
  | EOF
  /-- The sentinel `io.ErrShortWrite`. -/
  | ErrShortWrite
  /-- An error made by `fmt.Errorf` without `%w`, or an error of the environment. -/
  | errorf (msg : String)
  /-- An error made by `fmt.Errorf("msg: %w", cause)`. -/
  | wrap (msg : String) (cause : GoError)
  deriving DecidableEq, Repr

/-- The result `(n, err)` of one `Read(p)` call, with the bytes stored in `p[0:n]`. -/
structure ReadResult where
  data : List Byte
  err : Option GoError
  deriving DecidableEq, Repr

/-- The `n` of a read result. -/
def ReadResult.n (r : ReadResult) : Nat := r.data.length

/-- An `io.Reader` with state `σ`: `Read s len` is one call `Read(p)` with `len(p) = len`. -/
structure IOReader (σ : Type) where
  Read : σ → Nat → ReadResult × σ

/-- The result `(n, err)` of one `Write(p)` call. -/
structure WriteResult where
  n : Nat
  err : Option GoError
  deriving DecidableEq, Repr

/-- An `io.Writer` with state `τ`. -/
structure IOWriter (τ : Type) where
  Write : τ → List Byte → WriteResult × τ

/-- A finite byte stream that is served by reads of arbitrary granularity: the
model of an opened `os.File` on the client and of the body of a
`multipart.Part` on the server.

* `data` are the bytes not yet delivered;
* `plan` lists how many bytes the source has ready at the successive calls
  (short reads); once the plan is used up, a read fills the caller's buffer;
* `final` is the error reported at the end of the data: `io.EOF` for a stream
  that ends normally, another error for a stream that breaks;
* `eager` tells whether `final` is reported together with the last bytes or
  by a separate call returning zero bytes. -/
structure ByteSource where
  data : List Byte
  plan : List Nat
  final : GoError
  eager : Bool
  deriving DecidableEq, Repr

/-- One `Read(p)` on a byte source, with `len(p) = len`. -/
def ByteSource.Read (s : ByteSource) (len : Nat) : ReadResult × ByteSource :=
  match s.data with
  | [] => (⟨[], some s.final⟩, s)
  | _ :: _ =>
    let n := min (min len (s.plan.headD len)) s.data.length
    let rest := s.data.drop n
    (⟨s.data.take n, if s.eager && rest.isEmpty then some s.final else none⟩,
      { s with data := rest, plan := s.plan.tail })

/-- Byte sources as readers. -/
def byteSourceReader : IOReader ByteSource := ⟨ByteSource.Read⟩

/-- The outcome of `io.Copy`, with the final states of both ends. -/
structure CopyResult (τ σ : Type) where
  written : Nat
  err : Option GoError
  dst : τ
  src : σ

/-- The loop of `io.CopyBuffer(dst, src, buf)` with `len(buf) = size`:
read, write what was read, stop at the first error, and report `io.EOF` of the
reader as success. -/
def ioCopyBuffer {τ σ : Type} (W : IOWriter τ) (R : IOReader σ) (size : Nat) :
    Nat → τ → σ → Nat → Option (CopyResult τ σ)
  | 0, _, _, _ => none
  | fuel + 1, dst, src, written =>
    let (rr, src1) := R.Read src size
    if 0 < rr.n then
      let (wr, dst1) := W.Write dst rr.data
      -- a writer that reports more than it was given is an invalid write
      let nw := if rr.n < wr.n then 0 else wr.n
      let ew := if rr.n < wr.n then (some (wr.err.getD (.errorf "invalid write result"))) else wr.err
      match ew with
      | some e => some ⟨written + nw, some e, dst1, src1⟩
      | none =>
        if rr.n ≠ nw then some ⟨written + nw, some .ErrShortWrite, dst1, src1⟩
        else
          match rr.err with
          | some e => some ⟨written + nw, if e = .EOF then none else some e, dst1, src1⟩
          | none => ioCopyBuffer W R size fuel dst1 src1 (written + nw)
    else
      match rr.err with
      | some e => some ⟨written, if e = .EOF then none else some e, dst, src1⟩
      | none => ioCopyBuffer W R size fuel dst src1 written

/-- The function `io.Copy(dst, src)`: the copy loop with its buffer of `32 * 1024` bytes. -/
def ioCopy {τ σ : Type} (W : IOWriter τ) (R : IOReader σ) (fuel : Nat) (dst : τ) (src : σ) :
    Option (CopyResult τ σ) :=
  ioCopyBuffer W R (32 * 1024) fuel dst src 0

/-! ## Server: `slowReader` -/

/-- The struct `slowReader`.  `slept` is not a field of the Go struct: it counts
the `time.Sleep` calls that `Read` has made on this reader. -/
structure slowReader (σ : Type) where
  wrappedReader : σ
  dataBuffer : Int
  delay : Int
  slept : Nat

/-- The constructor `newSlowReader(r, delay)`. -/
def newSlowReader {σ : Type} (r : σ) (delay : Int) : slowReader σ :=
  { wrappedReader := r, dataBuffer := 0, delay := delay, slept := 0 }

/-- The function `(*slowReader).Read`. -/
def slowReader.Read {σ : Type} (R : IOReader σ) (s : slowReader σ) (len : Nat) :
    ReadResult × slowReader σ :=
  let s1 : slowReader σ :=
    if s.delay > 0 ∧ s.dataBuffer ≥ 32000 then
      { s with slept := s.slept + 1, dataBuffer := 0 }
    else s
  let (rr, r1) := R.Read s1.wrappedReader len
  (rr, { s1 with wrappedReader := r1, dataBuffer := s1.dataBuffer + rr.n })

/-- A `slowReader` around `R` as a reader. -/
def slowReaderOf {σ : Type} (R : IOReader σ) : IOReader (slowReader σ) := ⟨slowReader.Read R⟩

/-! ## Client: `ctxAwareReader` and `readerWithProgress` -/

/-- A `context.Context` as the reader observes it.  `active` is the number of
future `Done` polls that still find the context not cancelled; `none` is a
context that is never cancelled.  Once cancelled it stays cancelled. -/
structure Context where
  active : Option Nat
  deriving DecidableEq, Repr

/-- Whether `<-ctx.Done()` is ready now. -/
def Context.isDone (c : Context) : Bool := c.active == some 0

/-- The context after one poll that found it active. -/
def Context.next (c : Context) : Context := ⟨c.active.map Nat.pred⟩

/-- The struct `ctxAwareReader`. -/
structure ctxAwareReader (σ : Type) where
  ctx : Context
  wrappedReader : σ

/-- The constructor `newCtxAwareReader(ctx, r)`. -/
def newCtxAwareReader {σ : Type} (ctx : Context) (r : σ) : ctxAwareReader σ :=
  { ctx := ctx, wrappedReader := r }

/-- The error `fmt.Errorf("context cancelled")`. -/
def errCancelled : GoError := .errorf "context cancelled"

/-- The function `(*ctxAwareReader).Read`. -/
def ctxAwareReader.Read {σ : Type} (R : IOReader σ) (r : ctxAwareReader σ) (len : Nat) :
    ReadResult × ctxAwareReader σ :=
  if r.ctx.isDone then
    (⟨[], some errCancelled⟩, r)
  else
    let (rr, r1) := R.Read r.wrappedReader len
    (rr, { ctx := r.ctx.next, wrappedReader := r1 })

/-- A `ctxAwareReader` around `R` as a reader. -/
def ctxAwareReaderOf {σ : Type} (R : IOReader σ) : IOReader (ctxAwareReader σ) :=
  ⟨ctxAwareReader.Read R⟩

/-- The struct `readerWithProgress`.  The channel `progress` is the list of the
samples sent on it so far, oldest first. -/
structure readerWithProgress (σ : Type) where
  progress : List Int
  wrappedReader : σ

/-- The constructor `newReaderWithProgress(progress, r)`. -/
def newReaderWithProgress {σ : Type} (progress : List Int) (r : σ) : readerWithProgress σ :=
  { progress := progress, wrappedReader := r }

/-- The function `(*readerWithProgress).Read`. -/
def readerWithProgress.Read {σ : Type} (R : IOReader σ) (r : readerWithProgress σ) (len : Nat) :
    ReadResult × readerWithProgress σ :=
  let (rr, r1) := R.Read r.wrappedReader len
  (rr, { progress := r.progress ++ [(rr.n : Int)], wrappedReader := r1 })

/-- A `readerWithProgress` around `R` as a reader. -/
def readerWithProgressOf {σ : Type} (R : IOReader σ) : IOReader (readerWithProgress σ) :=
  ⟨readerWithProgress.Read R⟩

/-- A reader that records the buffer length of every call made to `R`. -/
def recording {σ : Type} (R : IOReader σ) : IOReader (σ × List Nat) :=
  ⟨fun s len => let (rr, s1) := R.Read s.1 len; (rr, (s1, s.2 ++ [len]))⟩

/-- The caller of a reader in general: call `Read` with buffers of the lengths
`bufs 0`, `bufs 1`, ... until a call reports an error (`io.EOF` included), and
return that error with the final state of the reader. -/
def readUntilError {σ : Type} (R : IOReader σ) (bufs : Nat → Nat) :
    Nat → Nat → σ → Option (GoError × σ)
  | 0, _, _ => none
  | fuel + 1, i, s =>
    let (rr, s1) := R.Read s (bufs i)
    match rr.err with
    | some e => some (e, s1)
    | none => readUntilError R bufs fuel (i + 1) s1

/-! ## Server: the response writer and the destination file -/

/-- The `http.ResponseWriter` of one request.  `status` is the status line sent
to the client: it is fixed by the first `WriteHeader` or `Write`. -/
structure ResponseWriter where
  status : Option Nat
  body : String
  deriving DecidableEq, Repr

/-- The call `w.WriteHeader(code)`: a second call is superfluous and changes nothing. -/
def ResponseWriter.WriteHeader (w : ResponseWriter) (code : Nat) : ResponseWriter :=
  match w.status with
  | some _ => w
  | none => { w with status := some code }

/-- The call `w.Write(data)`, as done by `fmt.Fprintf(w, ...)`: the first write sends
status 200 when no header was written before. -/
def ResponseWriter.Write (w : ResponseWriter) (data : String) : ResponseWriter :=
  { (w.WriteHeader 200) with body := w.body ++ data }

/-- The function `http.Error(w, msg, code)`. -/
def httpError (w : ResponseWriter) (msg : String) (code : Nat) : ResponseWriter :=
  (w.WriteHeader code).Write (msg ++ "\n")

/-- The status the client sees once the handler has returned: a handler that
wrote nothing answers 200. -/
def ResponseWriter.seen (w : ResponseWriter) : Nat := w.status.getD 200

/-- The constant `http.StatusOK`. -/
def StatusOK : Nat := 200

/-- The constant `http.StatusBadRequest`. -/
def StatusBadRequest : Nat := 400

/-- The constant `http.StatusUnsupportedMediaType`. -/
def StatusUnsupportedMediaType : Nat := 415

/-- The constant `http.StatusInternalServerError`. -/
def StatusInternalServerError : Nat := 500

/-- The file at `fixedFileLocation` and the behaviour of the file system.

* `dest` is the content of the file, `none` when it does not exist;
* `createErr` is the error `os.Create` returns, if it fails;
* `writable` is the number of `Write` calls that still succeed, `none` when
  no write fails;
* `creates` counts the calls of `os.Create`. -/
structure FileSystem where
  dest : Option (List Byte)
  createErr : Option GoError
  writable : Option Nat
  creates : Nat
  deriving DecidableEq, Repr

/-- The variable `fixedFileLocation`. -/
def fixedFileLocation : String := "/tmp/uploaded-file"

/-- The call `os.Create(fixedFileLocation)`: creates or truncates the file. -/
def osCreate (fs : FileSystem) : Option GoError × FileSystem :=
  match fs.createErr with
  | some e => (some e, { fs with creates := fs.creates + 1 })
  | none => (none, { fs with dest := some [], creates := fs.creates + 1 })

/-- The call `f.Write(p)` on the file created at `fixedFileLocation`. -/
def fileWrite (fs : FileSystem) (p : List Byte) : WriteResult × FileSystem :=
  match fs.writable with
  | some 0 => (⟨0, some (.errorf "write failed")⟩, fs)
  | some (k + 1) =>
    (⟨p.length, none⟩, { fs with dest := some (fs.dest.getD [] ++ p), writable := some k })
  | none => (⟨p.length, none⟩, { fs with dest := some (fs.dest.getD [] ++ p) })

/-- The created file as a writer. -/
def fileWriter : IOWriter FileSystem := ⟨fileWrite⟩

/-- A `bytes.Buffer` as a writer: it stores what it is given. -/
def bufferWriter : IOWriter (List Byte) := ⟨fun b p => (⟨p.length, none⟩, b ++ p)⟩

/-- The function `uploadStreamerToFixedLocation(r)`. -/
def uploadStreamerToFixedLocation {σ : Type} (R : IOReader σ) (fuel : Nat) (r : σ)
    (fs : FileSystem) : Option (Except GoError String × σ × FileSystem) :=
  match osCreate fs with
  | (some err, fs1) => some (.error (.wrap "error creating file" err), r, fs1)
  | (none, fs1) =>
    match ioCopy fileWriter R fuel fs1 r with
    | none => none
    | some res =>
      match res.err with
      | some err => some (.error (.wrap "error copying file data" err), res.src, res.dst)
      | none => some (.ok fixedFileLocation, res.src, res.dst)

/-! ## Server: the multipart body and `uploadHandler` -/

/-- A `multipart.Part` as `mr.NextPart()` returns it: the form name and the file
name of its `Content-Disposition`, and its body as a reader. -/
structure Part where
  formName : String
  fileName : String
  body : ByteSource
  deriving DecidableEq, Repr

/-- A `multipart.Reader` on a request body: the parts that `NextPart` returns
one after the other, and the error it returns after the last of them, which is
`io.EOF` for a body that ends with the closing boundary. -/
structure MultipartReader where
  parts : List Part
  final : GoError
  deriving DecidableEq, Repr

/-- An incoming `http.Request`, as far as `uploadHandler` looks at it.  The
library ties the two fields: `r.MultipartReader()` returns a reader only when
the `Content-Type` is a multipart type that carries a boundary parameter. -/
structure Request where
  /-- The value of `r.Header.Get("Content-Type")`, empty when the header is absent. -/
  contentType : String
  /-- What `r.MultipartReader()` returns. -/
  multipartReader : Except GoError MultipartReader

/-- The world of one run of `uploadHandler`.

* `w` is the response writer, `fs` the file system;
* `injectedUploadDelay` is the global of that name;
* `slept` counts `time.Sleep` calls, `readers` the calls of
  `r.MultipartReader()`, `nextParts` the calls of `mr.NextPart()`;
* `attributes` is the map the handler logs on success. -/
structure Server where
  w : ResponseWriter
  fs : FileSystem
  injectedUploadDelay : Int
  slept : Nat
  readers : Nat
  nextParts : Nat
  attributes : List (String × List Byte)
  deriving DecidableEq, Repr

/-- The world at the start of a request: nothing was written to the response yet. -/
def Server.start (fs : FileSystem) (injectedUploadDelay : Int) : Server :=
  { w := ⟨none, ""⟩, fs := fs, injectedUploadDelay := injectedUploadDelay,
    slept := 0, readers := 0, nextParts := 0, attributes := [] }

/-- The assignment `m[k] = v` on a Go map, kept as an association list. -/
def mapSet (m : List (String × List Byte)) (k : String) (v : List Byte) :
    List (String × List Byte) :=
  (k, v) :: m.filter (fun e => e.1 ≠ k)

/-- The end of `uploadHandler`, after the loop over the parts. -/
def uploadFinish (uploadedFileName : String) (attributes : List (String × List Byte))
    (sv : Server) : Server :=
  if uploadedFileName = "" then
    { sv with w := httpError sv.w "No file uploaded" StatusBadRequest }
  else
    { sv with w := sv.w.WriteHeader StatusOK, attributes := attributes }

/-- The loop `for { part, err := mr.NextPart() ... }` of `uploadHandler`,
followed by the end of the handler when the loop breaks. -/
def uploadLoop (fuel : Nat) : List Part → GoError → String → List (String × List Byte) →
    Server → Option Server
  | [], final, uploadedFileName, attributes, sv =>
    let sv := { sv with nextParts := sv.nextParts + 1 }
    if final = .EOF then
      some (uploadFinish uploadedFileName attributes sv)
    else
      some { sv with w := httpError sv.w "Error parsing request (next part)" StatusBadRequest }
  | part :: rest, final, uploadedFileName, attributes, sv =>
    let sv := { sv with nextParts := sv.nextParts + 1 }
    if part.formName = "object" then
      let filename := part.fileName
      if filename = "" then
        some { sv with
          w := httpError sv.w "Cannot process object without filename" StatusBadRequest }
      else
        let attributes := mapSet attributes "filename" (goBytes filename)
        match uploadStreamerToFixedLocation (slowReaderOf byteSourceReader) fuel
            (newSlowReader part.body sv.injectedUploadDelay) sv.fs with
        | none => none
        | some (.error _, sr, fs1) =>
          some { sv with
            fs := fs1, slept := sv.slept + sr.slept,
            w := httpError sv.w "Error saving file" StatusInternalServerError }
        | some (.ok fname, sr, fs1) =>
          let sv := { sv with
            fs := fs1, slept := sv.slept + sr.slept,
            w := sv.w.Write ("File '" ++ filename ++ "' uploaded successfully\n") }
          uploadLoop fuel rest final fname attributes sv
    else
      let attributeName := part.formName
      match ioCopy bufferWriter byteSourceReader fuel [] part.body with
      | none => none
      | some res =>
        match res.err with
        | some _ =>
          some { sv with w := httpError sv.w "Error reading attribute" StatusBadRequest }
        | none =>
          let data := res.dst
          uploadLoop fuel rest final uploadedFileName (mapSet attributes attributeName data) sv

/-- The handler `uploadHandler(w, r)`. -/
def uploadHandler (fuel : Nat) (r : Request) (sv : Server) : Option Server :=
  if !stringsHasPrefix r.contentType "multipart/form-data" then
    some { sv with
      w := httpError sv.w "Unsupported Media Type" StatusUnsupportedMediaType }
  else
    let sv := { sv with readers := sv.readers + 1 }
    match r.multipartReader with
    | .error _ =>
      some { sv with w := httpError sv.w "Error parsing request" StatusBadRequest }
    | .ok mr => uploadLoop fuel mr.parts mr.final "" [] sv

/-! ## Client: the multipart writer on the pipe, and the encoder -/

/-- What the encoder hands to the pipe through the `multipart.Writer`, one
frame per operation of the writer. -/
inductive Frame where
  /-- The field written by `writer.WriteField(name, value)`. -/
  | field (name : String) (value : List Byte)
  /-- The part header written by `writer.CreateFormFile(fieldname, filename)`. -/
  | file (fieldname : String) (filename : String)
  /-- The bytes written into the open part by one `part.Write(p)`. -/
  | data (p : List Byte)
  /-- The trailing boundary written by `writer.Close()`. -/
  | closing
  deriving DecidableEq, Repr

/-- The write end `w` of `io.Pipe()` with the `multipart.Writer` on it.

* `frames` are the frames handed to the pipe so far, in order;
* `accepts` is the number of writes the reading side still takes before it
  goes away, `none` when it takes them all;
* `closed` tells how the write end was closed: `none` while it is open,
  `some none` after `Close`, `some (some err)` after `CloseWithError(err)`. -/
structure Pipe where
  frames : List Frame
  accepts : Option Nat
  closed : Option (Option GoError)
  deriving DecidableEq, Repr

/-- The sentinel `io.ErrClosedPipe`. -/
def ErrClosedPipe : GoError := .errorf "io: read/write on closed pipe"

/-- One write of the multipart writer into the pipe. -/
def Pipe.put (p : Pipe) (f : Frame) : Option GoError × Pipe :=
  match p.accepts with
  | some 0 => (some ErrClosedPipe, p)
  | some (k + 1) => (none, { p with frames := p.frames ++ [f], accepts := some k })
  | none => (none, { p with frames := p.frames ++ [f] })

/-- The call `w.CloseWithError(err)`: the first close of the write end wins. -/
def Pipe.CloseWithError (p : Pipe) (err : GoError) : Pipe :=
  match p.closed with
  | some _ => p
  | none => { p with closed := some (some err) }

/-- The call `w.Close()`. -/
def Pipe.Close (p : Pipe) : Pipe :=
  match p.closed with
  | some _ => p
  | none => { p with closed := some none }

/-- The `part` returned by `writer.CreateFormFile` as a writer. -/
def partWriter : IOWriter Pipe :=
  ⟨fun p b =>
    match p.put (.data b) with
    | (some err, p1) => (⟨0, some err⟩, p1)
    | (none, p1) => (⟨b.length, none⟩, p1)⟩

/-- The function `filepath.Base(path)` with `/` as separator. -/
def filepathBase (path : String) : String :=
  if path = "" then "."
  else
    let stripped := (path.toList.reverse.dropWhile (fun c => c == '/')).reverse
    let last := (stripped.reverse.takeWhile (fun c => c != '/')).reverse
    if last = [] then "/" else String.mk last

/-- The world of one run of the encoder task of `uploadFileStreaming`.

* `ctx` is the context given to `uploadFileStreaming`;
* `pipe` is the write end of the pipe with the multipart writer;
* `file` is the file named `filename` as `os.Open` opens it, and `openErr`
  the error `os.Open` returns, if it fails;
* `errCh` lists the errors sent on the error channel of the task;
* `progression` lists the samples sent on the channel of that name since it
  was made, and `progressionClosed` tells whether it was closed;
* `bar` is the total that the progress bar has been given. -/
structure Client where
  ctx : Context
  pipe : Pipe
  file : ByteSource
  openErr : Option GoError
  errCh : List GoError
  progression : List Int
  progressionClosed : Bool
  bar : Int
  deriving DecidableEq, Repr

/-- The failure path of the encoder: send the wrapped error on `errCh`, close
the write end with it, and run the deferred `w.Close()`. -/
def Client.fail (c : Client) (msg : String) (err : GoError) : Client :=
  { c with
    errCh := c.errCh ++ [.wrap msg err],
    pipe := (c.pipe.CloseWithError (.wrap msg err)).Close }

/-- The loop `for key, value := range attributes { writer.WriteField(key, value) }`:
it returns the first error of `WriteField`. -/
def writeFields : List (String × List Byte) → Pipe → Option GoError × Pipe
  | [], p => (none, p)
  | (key, value) :: rest, p =>
    match p.put (.field key value) with
    | (some err, p1) => (some err, p1)
    | (none, p1) => writeFields rest p1

/-- The inner `nursery.RunConcurrently` on the new channel `progression`: the
first task copies the file into the part through the two reader wrappers and
closes `progression`; the second task adds every sample to the progress bar.
The result is the error of the copy. -/
def copyFileData (fuel : Nat) (c : Client) : Option (Option GoError × Client) :=
  match ioCopy partWriter (readerWithProgressOf (ctxAwareReaderOf byteSourceReader)) fuel
      c.pipe (newReaderWithProgress [] (newCtxAwareReader c.ctx c.file)) with
  | none => none
  | some res =>
    some (res.err,
      { c with
        pipe := res.dst,
        progression := res.src.progress,
        progressionClosed := true,
        ctx := res.src.wrappedReader.ctx,
        file := res.src.wrappedReader.wrappedReader,
        bar := c.bar + res.src.progress.sum })

/-- The encoder task of `uploadFileStreaming`: the first function given to the
outer `nursery.RunConcurrently`.  `attributes` lists the entries of the map in
the order in which `range` visits them. -/
def encoder (fuel : Nat) (filename : String) (attributes : List (String × List Byte))
    (c : Client) : Option Client :=
  match writeFields attributes c.pipe with
  | (some err, p1) => some ({ c with pipe := p1 }.fail "failed to write field" err)
  | (none, p1) =>
    match p1.put (.file "object" (filepathBase filename)) with
    | (some err, p2) => some ({ c with pipe := p2 }.fail "failed to create form file" err)
    | (none, p2) =>
      match c.openErr with
      | some err => some ({ c with pipe := p2 }.fail ("failed to open " ++ filename) err)
      | none =>
        match copyFileData fuel { c with pipe := p2 } with
        | none => none
        | some (some err, c1) => some (c1.fail "failed to copy file data" err)
        | some (none, c1) =>
          match c1.pipe.put .closing with
          | (some err, p3) => some ({ c1 with pipe := p3 }.fail "failed to close writer" err)
          | (none, p3) => some { c1 with pipe := p3.Close }

/-! ## From the frames on the pipe to the parts the server reads

The multipart writer puts a name into a part header after escaping it, and the
multipart reader of the server refuses a part whose header it cannot accept.
Both are code of the Go library, modelled from its source. -/

/-- The backslash character. -/
def backslashChar : Char := Char.ofNat 92

/-- The double quote character. -/
def quoteChar : Char := Char.ofNat 34

/-- What `escapeQuotes` of `mime/multipart` writes for one character: a
backslash before a backslash or a double quote, and `%0D`, `%0A` for carriage
return and line feed. -/
def escapeChar (c : Char) : List Char :=
  if c = backslashChar then [backslashChar, backslashChar]
  else if c = quoteChar then [backslashChar, quoteChar]
  else if c = Char.ofNat 13 then ['%', '0', 'D']
  else if c = Char.ofNat 10 then ['%', '0', 'A']
  else [c]

/-- The function `escapeQuotes` of `mime/multipart`, applied by the writer to
field names and file names. -/
def escapeQuotes (s : String) : String := String.mk (s.toList.flatMap escapeChar)

/-- The function `isTSpecial` of `mime`: the characters `()<>@,;:\"/[]?=`. -/
def isTSpecial (c : Char) : Bool :=
  [40, 41, 60, 62, 64, 44, 59, 58, 92, 34, 47, 91, 93, 63, 61].contains c.toNat

/-- The function `isTokenChar` of `mime`. -/
def isTokenChar (c : Char) : Bool := 32 < c.toNat && c.toNat < 127 && !isTSpecial c

/-- The value of a quoted parameter as `mime.ParseMediaType` reads it, given
the characters after the opening quote: a backslash followed by a special
character stands for that character, any other backslash stands for itself,
and an unescaped double quote ends the value.  `pending` tells that the
character before was a backslash whose meaning depends on this one. -/
def unquoteFrom (pending : Bool) : List Char → List Char
  | [] => if pending then [backslashChar] else []
  | c :: rest =>
    if pending then
      if isTSpecial c then c :: unquoteFrom false rest
      else backslashChar :: c :: unquoteFrom false rest
    else if c = quoteChar then []
    else if c = backslashChar then unquoteFrom true rest
    else c :: unquoteFrom false rest

/-- The value of a quoted parameter, from the character after the opening quote. -/
def unquote (l : List Char) : List Char := unquoteFrom false l

/-- The name the server reads from a part header for the name the client gave
to the writer. -/
def receivedName (s : String) : String := String.mk (unquote (escapeQuotes s).toList)

/-- The test `validHeaderValueByte` of `net/textproto`, on a character: tab,
the printable ASCII characters, and the bytes of characters outside ASCII. -/
def validHeaderValueChar (c : Char) : Bool :=
  c.toNat == 9 || (32 ≤ c.toNat && c.toNat != 127)

/-- The header lines `CreateFormField(fieldname)` writes for a part. -/
def fieldHeader (fieldname : String) : List (String × String) :=
  [("Content-Disposition",
    "form-data; name=" ++ String.singleton quoteChar ++ escapeQuotes fieldname
      ++ String.singleton quoteChar)]

/-- The header lines `CreateFormFile(fieldname, filename)` writes for a part. -/
def fileHeader (fieldname filename : String) : List (String × String) :=
  [("Content-Disposition",
    "form-data; name=" ++ String.singleton quoteChar ++ escapeQuotes fieldname
      ++ String.singleton quoteChar ++ "; filename=" ++ String.singleton quoteChar
      ++ escapeQuotes filename ++ String.singleton quoteChar),
   ("Content-Type", "application/octet-stream")]

/-- The number of bytes of a part header on the wire: each line as
`Key: value\r\n`, and the empty line that ends the header. -/
def headerSize (lines : List (String × String)) : Nat :=
  (lines.map (fun kv => (goBytes kv.1).length + 2 + (goBytes kv.2).length + 2)).sum + 2

/-- Whether `NextPart` accepts a part header: every character of every value
is a valid header value byte, and the header is not larger than `limit`, the
largest part header the reader takes. -/
def headerAccepted (limit : Nat) (lines : List (String × String)) : Bool :=
  lines.all (fun kv => kv.2.toList.all validHeaderValueChar) && decide (headerSize lines ≤ limit)

/-- How the network and the multipart reader deliver the parts to the server:
the short-read plan of the body of the part number `i`, whether its reader
reports the end together with the last bytes, and the largest part header
the reader takes. -/
structure Delivery where
  plan : Nat → List Nat
  eager : Nat → Bool
  headerLimit : Nat

/-- The error `io.ErrUnexpectedEOF` of a body that stops before its closing boundary. -/
def ErrUnexpectedEOF : GoError := .errorf "unexpected EOF"

/-- The error of `NextPart` on a part header it refuses. -/
def ErrMalformedHeader : GoError := .errorf "malformed MIME header line"

/-- The error `http.ErrMissingBoundary` or `http.ErrNotMultipart` of
`r.MultipartReader()` on a `Content-Type` without a usable boundary. -/
def ErrMissingBoundary : GoError := .errorf "no multipart boundary param in Content-Type"

/-- The part number `i`, complete (`final = io.EOF`) or cut off. -/
def Delivery.part (d : Delivery) (i : Nat) (formName fileName : String) (body : List Byte)
    (final : GoError) : Part :=
  { formName := formName, fileName := fileName,
    body := { data := body, plan := d.plan i, final := final, eager := d.eager i } }

/-- The part that is still open, closed by what follows it. -/
def Delivery.flush (d : Delivery) (done : List Part) (cur : Option (String × String × List Byte))
    (final : GoError) : List Part :=
  match cur with
  | none => done
  | some (n, f, b) => done ++ [d.part done.length n f b final]

/-- The method `Part.FileName` on the file name read from the header: empty
when none was declared, its base name otherwise. -/
def partFileName (filename : String) : String :=
  if filename = "" then "" else filepathBase filename

/-- The `multipart.Reader` of the server on the frames the client handed to the
pipe.  A field is a part without file name; a file header opens a part whose
body is made of the data frames that follow; the names are the ones read back
from the escaped header.  A part whose header the reader does not accept ends
the sequence: `NextPart` returns an error there.  The closing frame ends the
body with `io.EOF`, and frames that stop without it end it with an error. -/
def decodeFrames (d : Delivery) : List Frame → List Part →
    Option (String × String × List Byte) → MultipartReader
  | [], done, cur => ⟨d.flush done cur ErrUnexpectedEOF, ErrUnexpectedEOF⟩
  | .field n v :: rest, done, cur =>
    let done := d.flush done cur .EOF
    if headerAccepted d.headerLimit (fieldHeader n) then
      decodeFrames d rest (done ++ [d.part done.length (receivedName n) "" v .EOF]) none
    else ⟨done, ErrMalformedHeader⟩
  | .file n f :: rest, done, cur =>
    let done := d.flush done cur .EOF
    if headerAccepted d.headerLimit (fileHeader n f) then
      decodeFrames d rest done (some (receivedName n, partFileName (receivedName f), []))
    else ⟨done, ErrMalformedHeader⟩
  | .data p :: rest, done, cur =>
    match cur with
    | some (n, f, b) => decodeFrames d rest done (some (n, f, b ++ p))
    | none => decodeFrames d rest done none
  | .closing :: _, done, cur => ⟨d.flush done cur .EOF, .EOF⟩

/-- Whether a boundary can stand unquoted in `Content-Type`: a non-empty
token.  The boundary a `multipart.Writer` makes, sixty hexadecimal digits, is
one. -/
def tokenBoundary (boundary : String) : Bool :=
  !boundary.toList.isEmpty && boundary.toList.all isTokenChar

/-- The request the server receives for the frames `frames`: the client set the
header `Content-Type` to `writer.FormDataContentType()`, and
`r.MultipartReader()` makes a reader when that header carries a boundary. -/
def requestOf (d : Delivery) (boundary : String) (frames : List Frame) : Request :=
  { contentType := "multipart/form-data; boundary=" ++ boundary,
    multipartReader :=
      if tokenBoundary boundary then .ok (decodeFrames d frames [] none)
      else .error ErrMissingBoundary }

/-! ## Concrete inputs used by the examples below -/

/-- A file of three bytes, read at most two bytes at a time. -/
def sampleFile : ByteSource := { data := [104, 105, 33], plan := [2, 2], final := .EOF, eager := false }

/-- A context that is already cancelled. -/
def cancelledCtx : Context := ⟨some 0⟩

/-- A context that is never cancelled. -/
def liveCtx : Context := ⟨none⟩

/-- A file system on which nothing fails and where the destination does not exist. -/
def healthyFs : FileSystem := { dest := none, createErr := none, writable := none, creates := 0 }

/-- The destination of one step of the copy loop: written to only when bytes were read. -/
def stepDst {τ : Type} (W : IOWriter τ) (t : τ) (rr : ReadResult) : τ :=
  if 0 < rr.n then (W.Write t rr.data).2 else t

/-- The number of reads after which a byte source has certainly reported its end. -/
def ByteSource.size (s : ByteSource) : Nat := s.data.length + s.plan.length

/-- The parts of a body that carry the payload: those with form name `object`. -/
def objectParts (parts : List Part) : List Part :=
  parts.filter (fun p => p.formName = "object")

/-- The destination file after every object part of `parts` was stored in turn
on a file system on which nothing fails: each one replaces the file. -/
def storedAfter (parts : List Part) (fs : FileSystem) : FileSystem :=
  parts.foldl (fun fs p =>
    if p.formName = "object" then { fs with dest := some p.body.data, creates := fs.creates + 1 }
    else fs) fs

/-- A request with the content type the client sends and the body `mr`. -/
def uploadRequest (mr : MultipartReader) : Request :=
  { contentType := "multipart/form-data; boundary=b", multipartReader := .ok mr }

/-- A body with two object parts, both with a file name. -/
def twoObjects : MultipartReader :=
  { parts := [⟨"object", "a.txt", ⟨[1, 2], [], .EOF, false⟩⟩,
              ⟨"object", "b.txt", ⟨[3], [], .EOF, false⟩⟩],
    final := .EOF }

/-- A body with an object part that has a file name, followed by an object
part that has none. -/
def namedThenUnnamed : MultipartReader :=
  { parts := [⟨"object", "a.txt", ⟨[1, 2], [], .EOF, false⟩⟩,
              ⟨"object", "", ⟨[3], [], .EOF, false⟩⟩],
    final := .EOF }

/-- A body with two attribute fields and no object part. -/
def fieldsOnly : MultipartReader :=
  { parts := [⟨"a", "", ⟨[49], [], .EOF, false⟩⟩, ⟨"b", "", ⟨[50], [1], .EOF, true⟩⟩],
    final := .EOF }

/-- A stream of 64000 bytes that ends with `io.EOF` reported by a separate read. -/
def longStream : ByteSource :=
  { data := List.replicate 64000 0, plan := [], final := .EOF, eager := false }

/-- A client about to upload `sampleFile`: live context, new pipe whose reader
takes every write, file that opens. -/
def sampleClient : Client :=
  { ctx := liveCtx, pipe := ⟨[], none, none⟩, file := sampleFile, openErr := none,
    errCh := [], progression := [], progressionClosed := false, bar := 0 }

/-- A network that delivers every part in reads of at most two bytes. -/
def sampleDelivery : Delivery :=
  { plan := fun _ => [2, 0, 1], eager := fun _ => false, headerLimit := 10 * 1024 * 1024 }

/-- A boundary as the multipart writer makes them: sixty hexadecimal digits. -/
def sampleBoundary : String := "0123456789abcdef0123456789abcdef0123456789abcdef0123456789ab"

/-- A file name whose base name holds the control byte `0x01`. -/
def controlByteName : String := "/tmp/a\x01b"

/-- A client whose context is cancelled before the upload starts. -/
def cancelledClient : Client := { sampleClient with ctx := cancelledCtx }

/-- What the server reads back for one character of a name: the character
itself, except that carriage return and line feed arrive percent-encoded. -/
def percentChar (c : Char) : List Char :=
  if c = Char.ofNat 13 then ['%', '0', 'D']
  else if c = Char.ofNat 10 then ['%', '0', 'A']
  else [c]

/-! ## The copy loop -/

theorem ioCopyBuffer_step {τ σ : Type} (W : IOWriter τ) (R : IOReader σ) (size fuel : Nat)
    (t : τ) (s : σ) (w : Nat)
    (hw : 0 < (R.Read s size).1.n →
        (W.Write t (R.Read s size).1.data).1 = ⟨(R.Read s size).1.n, none⟩) :
    ioCopyBuffer W R size (fuel + 1) t s w =
      match (R.Read s size).1.err with
      | some e => some ⟨w + (R.Read s size).1.n, if e = .EOF then none else some e,
          stepDst W t (R.Read s size).1, (R.Read s size).2⟩
      | none => ioCopyBuffer W R size fuel (stepDst W t (R.Read s size).1) (R.Read s size).2
          (w + (R.Read s size).1.n) := by
  rw [ioCopyBuffer]
  by_cases hn : 0 < (R.Read s size).1.n
  · have h1 := hw hn
    simp only [hn, h1, stepDst, if_true, lt_irrefl, if_false]
    simp
  · have hn0 : (R.Read s size).1.n = 0 := by omega
    simp only [hn, stepDst, if_false, hn0, Nat.add_zero]
    simp

theorem ioCopyBuffer_reads {τ σ : Type} (W : IOWriter τ) (R : IOReader σ) (size : Nat)
    (P : τ → σ → Nat → Prop) (Q : Option GoError → τ → σ → Nat → Prop) (μ : σ → Nat)
    (hstep : ∀ t s w, P t s w →
      (0 < (R.Read s size).1.n →
        (W.Write t (R.Read s size).1.data).1 = ⟨(R.Read s size).1.n, none⟩) ∧
      (((R.Read s size).1.err = none ∧ μ (R.Read s size).2 < μ s ∧
          P (stepDst W t (R.Read s size).1) (R.Read s size).2 (w + (R.Read s size).1.n)) ∨
       (∃ e, (R.Read s size).1.err = some e ∧
          Q (if e = .EOF then none else some e)
            (stepDst W t (R.Read s size).1) (R.Read s size).2 (w + (R.Read s size).1.n)))) :
    ∀ fuel t s w, P t s w → μ s < fuel →
      ∃ res, ioCopyBuffer W R size fuel t s w = some res ∧
        Q res.err res.dst res.src res.written := by
  intro fuel
  induction fuel with
  | zero => intro t s w _ h; omega
  | succ k ih =>
    intro t s w hP hμ
    obtain ⟨hw, hr⟩ := hstep t s w hP
    rw [ioCopyBuffer_step W R size k t s w hw]
    rcases hr with ⟨he, hlt, hP1⟩ | ⟨e, he, hQ⟩
    · rw [he]
      exact ih _ _ _ hP1 (by omega)
    · rw [he]
      exact ⟨_, rfl, hQ⟩

theorem ioCopyBuffer_write_fails {τ σ : Type} (W : IOWriter τ) (R : IOReader σ) (size fuel : Nat)
    (t : τ) (s : σ) (w : Nat) (hn : 0 < (R.Read s size).1.n)
    (hw : (W.Write t (R.Read s size).1.data).1 ≠ ⟨(R.Read s size).1.n, none⟩) :
    ∃ res, ioCopyBuffer W R size (fuel + 1) t s w = some res ∧ res.err ≠ none ∧
      res.src = (R.Read s size).2 := by
  rw [ioCopyBuffer]
  simp only [hn, if_true]
  rcases hwr : (W.Write t (R.Read s size).1.data).1 with ⟨n, e⟩
  rw [hwr] at hw
  by_cases h1 : (R.Read s size).1.n < n
  · simp [h1, hwr]
  · cases e with
    | some e => simp [h1, hwr]
    | none =>
      have h2 : (R.Read s size).1.n ≠ n := by
        intro h; apply hw; rw [h]
      simp [h1, hwr, h2]

theorem ioCopyBuffer_total {τ σ : Type} (W : IOWriter τ) (R : IOReader σ) (size : Nat)
    (P Q : τ → σ → Nat → Prop) (I : σ → Prop) (μ : σ → Nat)
    (hI : ∀ s, I s → I (R.Read s size).2)
    (hstep : ∀ t s w, P t s w →
      ((R.Read s size).1.err = none → μ (R.Read s size).2 < μ s) ∧
      ((0 < (R.Read s size).1.n →
          (W.Write t (R.Read s size).1.data).1 = ⟨(R.Read s size).1.n, none⟩) →
        ((R.Read s size).1.err = none →
          P (stepDst W t (R.Read s size).1) (R.Read s size).2 (w + (R.Read s size).1.n)) ∧
        ((R.Read s size).1.err = some .EOF →
          Q (stepDst W t (R.Read s size).1) (R.Read s size).2 (w + (R.Read s size).1.n)))) :
    ∀ fuel t s w, P t s w → I s → μ s < fuel →
      ∃ res, ioCopyBuffer W R size fuel t s w = some res ∧ I res.src ∧
        (res.err = none → Q res.dst res.src res.written) := by
  intro fuel
  induction fuel with
  | zero => intro t s w _ _ h; omega
  | succ k ih =>
    intro t s w hP hIs hμ
    obtain ⟨hlt, hr⟩ := hstep t s w hP
    by_cases hw : 0 < (R.Read s size).1.n →
        (W.Write t (R.Read s size).1.data).1 = ⟨(R.Read s size).1.n, none⟩
    · rw [ioCopyBuffer_step W R size k t s w hw]
      obtain ⟨hP1, hQ⟩ := hr hw
      cases he : (R.Read s size).1.err with
      | none => exact ih _ _ _ (hP1 he) (hI s hIs) (by have := hlt he; omega)
      | some e =>
        refine ⟨_, rfl, hI s hIs, ?_⟩
        by_cases hE : e = .EOF
        · subst hE
          intro _
          exact hQ he
        · simp [hE]
    · have hn : 0 < (R.Read s size).1.n := by
        by_contra h; exact hw (fun h1 => absurd h1 h)
      have hw1 : (W.Write t (R.Read s size).1.data).1 ≠ ⟨(R.Read s size).1.n, none⟩ :=
        fun h => hw (fun _ => h)
      obtain ⟨res, h1, h2, h3⟩ := ioCopyBuffer_write_fails W R size k t s w hn hw1
      exact ⟨res, h1, by rw [h3]; exact hI s hIs, fun h => absurd h h2⟩

theorem ReadResult.data_of_n_zero (rr : ReadResult) (h : ¬ 0 < rr.n) : rr.data = [] := by
  cases hd : rr.data with
  | nil => rfl
  | cons a l => simp [ReadResult.n, hd] at h

theorem ByteSource.Read_spec (s : ByteSource) (len : Nat) :
    (s.Read len).1.data ++ (s.Read len).2.data = s.data ∧
    (s.Read len).2.final = s.final ∧ (s.Read len).2.eager = s.eager ∧
    (s.Read len).1.n ≤ len ∧
    (((s.Read len).1.err = none ∧ (0 < len → (s.Read len).2.size < s.size)) ∨
     ((s.Read len).1.err = some s.final ∧ (s.Read len).2.data = [])) := by
  rcases s with ⟨data, plan, final, eager⟩
  cases data with
  | nil => simp [ByteSource.Read, ReadResult.n]
  | cons a rest =>
    simp only [ByteSource.Read, ReadResult.n, ByteSource.size]
    refine ⟨List.take_append_drop _ _, trivial, trivial, ?_, ?_⟩
    · simp only [List.length_take]
      omega
    · by_cases h : (eager && (List.drop (min (min len (plan.headD len)) (a :: rest).length)
          (a :: rest)).isEmpty) = true
      · right
        simp only [h, if_true, true_and]
        simp only [Bool.and_eq_true, List.isEmpty_iff] at h
        exact h.2
      · left
        simp only [h]
        refine ⟨by simp, ?_⟩
        intro hlen
        cases plan with
        | nil =>
          simp only [List.headD_nil, List.tail_nil, List.length_drop, List.length_cons,
            List.length_nil]
          omega
        | cons p ps =>
          simp only [List.headD_cons, List.tail_cons, List.length_drop, List.length_cons]
          omega

/-! ## Client: the reader wrappers -/

/-- C9: on every call of `ctxAwareReader.Read`, whatever the state of the reader:
if the context is done, the call returns `(0, context cancelled)` and the
wrapped reader is not called (its state and the record of its calls are
unchanged); otherwise the wrapped `Read` is called exactly once, with the same
buffer length, and the call returns exactly the bytes and the error of that
call. -/
theorem ctxAwareReader_Read_spec {σ : Type} (R : IOReader σ) (ctx : Context) (s : σ)
    (calls : List Nat) (len : Nat) :
    (ctx.isDone = true →
      ctxAwareReader.Read (recording R) ⟨ctx, (s, calls)⟩ len
        = (⟨[], some errCancelled⟩, ⟨ctx, (s, calls)⟩)) ∧
    (ctx.isDone = false →
      (ctxAwareReader.Read (recording R) ⟨ctx, (s, calls)⟩ len).1 = (R.Read s len).1 ∧
      (ctxAwareReader.Read (recording R) ⟨ctx, (s, calls)⟩ len).2.wrappedReader
        = ((R.Read s len).2, calls ++ [len])) := by
  constructor
  · intro h
    simp [ctxAwareReader.Read, h]
  · intro h
    simp [ctxAwareReader.Read, h, recording]

/-- C9, at a concrete input: a cancelled context on a reader that was already
called twice, and a live context on the same reader. -/
theorem ctxAwareReader_Read_spec_witness :
    ctxAwareReader.Read (recording byteSourceReader) ⟨cancelledCtx, (sampleFile, [8, 8])⟩ 8
        = (⟨[], some errCancelled⟩, ⟨cancelledCtx, (sampleFile, [8, 8])⟩) ∧
    (ctxAwareReader.Read (recording byteSourceReader) ⟨liveCtx, (sampleFile, [8, 8])⟩ 8).1
        = (byteSourceReader.Read sampleFile 8).1 ∧
    (ctxAwareReader.Read (recording byteSourceReader) ⟨liveCtx, (sampleFile, [8, 8])⟩ 8).2.wrappedReader
        = ((byteSourceReader.Read sampleFile 8).2, [8, 8] ++ [8]) :=
  ⟨(ctxAwareReader_Read_spec byteSourceReader cancelledCtx sampleFile [8, 8] 8).1 (by decide),
   (ctxAwareReader_Read_spec byteSourceReader liveCtx sampleFile [8, 8] 8).2 (by decide)⟩

/-- C10 fails on the code: when the wrapped reader is a `ctxAwareReader` whose
context is cancelled, the call returns the cancellation error, which is not
`io.EOF`, and still sends one sample, `0`, on the progress channel. -/
theorem readerWithProgress_Read_sends_on_error :
    (readerWithProgress.Read (ctxAwareReaderOf byteSourceReader)
        (newReaderWithProgress [] (newCtxAwareReader cancelledCtx sampleFile)) 8).1.err
      = some errCancelled ∧
    errCancelled ≠ GoError.EOF ∧
    (readerWithProgress.Read (ctxAwareReaderOf byteSourceReader)
        (newReaderWithProgress [] (newCtxAwareReader cancelledCtx sampleFile)) 8).2.progress
      = [0] := by
  decide

/-- C10, amended: every call of `readerWithProgress.Read` sends exactly one
sample, the `n` that the wrapped reader returned, whether or not the wrapped
reader returned an error; the call returns what the wrapped reader returned. -/
theorem readerWithProgress_Read_sends_n {σ : Type} (R : IOReader σ) (r : readerWithProgress σ)
    (len : Nat) :
    (readerWithProgress.Read R r len).2.progress
      = r.progress ++ [((R.Read r.wrappedReader len).1.n : Int)] ∧
    (readerWithProgress.Read R r len).1 = (R.Read r.wrappedReader len).1 ∧
    (readerWithProgress.Read R r len).2.wrappedReader = (R.Read r.wrappedReader len).2 := by
  simp [readerWithProgress.Read]

theorem clientReader_Read (s : readerWithProgress (ctxAwareReader ByteSource)) (len : Nat) :
    (s.wrappedReader.ctx.isDone = true →
      (readerWithProgressOf (ctxAwareReaderOf byteSourceReader)).Read s len
        = (⟨[], some errCancelled⟩, ⟨s.progress ++ [0], s.wrappedReader⟩)) ∧
    (s.wrappedReader.ctx.isDone = false →
      (readerWithProgressOf (ctxAwareReaderOf byteSourceReader)).Read s len
        = ((s.wrappedReader.wrappedReader.Read len).1,
            ⟨s.progress ++ [((s.wrappedReader.wrappedReader.Read len).1.n : Int)],
              ⟨s.wrappedReader.ctx.next, (s.wrappedReader.wrappedReader.Read len).2⟩⟩)) := by
  constructor
  · intro h
    simp [readerWithProgressOf, readerWithProgress.Read, ctxAwareReaderOf, ctxAwareReader.Read, h,
      ReadResult.n]
  · intro h
    simp [readerWithProgressOf, readerWithProgress.Read, ctxAwareReaderOf, ctxAwareReader.Read, h,
      byteSourceReader]

/-! ## Server: the sleeps of `slowReader` -/

theorem slowReader.Read_fst {σ : Type} (R : IOReader σ) (s : slowReader σ) (len : Nat) :
    (slowReader.Read R s len).1 = (R.Read s.wrappedReader len).1 ∧
    (slowReader.Read R s len).2.wrappedReader = (R.Read s.wrappedReader len).2 := by
  unfold slowReader.Read
  split_ifs <;> exact ⟨rfl, rfl⟩

theorem slowReader.Read_counts {σ : Type} (R : IOReader σ) (s : slowReader σ) (len : Nat)
    (hd : 0 < s.delay) :
    (slowReader.Read R s len).2.delay = s.delay ∧
    ((32000 ≤ s.dataBuffer ∧ (slowReader.Read R s len).2.slept = s.slept + 1 ∧
        (slowReader.Read R s len).2.dataBuffer = ((R.Read s.wrappedReader len).1.n : Int)) ∨
     (s.dataBuffer < 32000 ∧ (slowReader.Read R s len).2.slept = s.slept ∧
        (slowReader.Read R s len).2.dataBuffer
          = s.dataBuffer + ((R.Read s.wrappedReader len).1.n : Int))) := by
  unfold slowReader.Read
  by_cases h : s.dataBuffer ≥ 32000
  · simp [hd, h]
  · have h1 : s.dataBuffer < 32000 := by omega
    simp [h, h1]

theorem readUntilError_reads {σ : Type} (R : IOReader σ) (bufs : Nat → Nat)
    (P : Nat → σ → Prop) (Q : GoError → σ → Prop) (μ : σ → Nat)
    (hstep : ∀ i s, P i s →
      (((R.Read s (bufs i)).1.err = none ∧ μ (R.Read s (bufs i)).2 < μ s ∧
          P (i + 1) (R.Read s (bufs i)).2) ∨
       (∃ e, (R.Read s (bufs i)).1.err = some e ∧ Q e (R.Read s (bufs i)).2))) :
    ∀ fuel i s, P i s → μ s < fuel →
      ∃ e s1, readUntilError R bufs fuel i s = some (e, s1) ∧ Q e s1 := by
  intro fuel
  induction fuel with
  | zero => intro i s _ h; omega
  | succ k ih =>
    intro i s hP hμ
    rw [readUntilError]
    rcases hstep i s hP with ⟨he, hlt, hP1⟩ | ⟨e, he, hQ⟩
    · simp only [he]
      exact ih _ _ hP1 (show μ (R.Read s (bufs i)).2 < k by omega)
    · simp only [he]
      exact ⟨e, _, rfl, hQ⟩

/-- C6, amended: for a stream of `N` bytes that ends with `io.EOF`, a positive
delay, and callers' buffers of at least one and at most `B` bytes, reading
through `slowReader.Read` until it reports the end of the stream does report
`io.EOF`, and the number of sleeps `k` satisfies `k * 32000 ≤ N` and
`N ≤ (k + 1) * (31999 + B)`: at most `N / 32000` sleeps, and at least
`N / (31999 + B) - 1`. -/
theorem slowReader_sleep_bounds (data : List Byte) (plan : List Nat) (eager : Bool) (delay : Int)
    (bufs : Nat → Nat) (B fuel : Nat) (hdelay : 0 < delay)
    (hbufs : ∀ i, 0 < bufs i ∧ bufs i ≤ B) (hfuel : data.length + plan.length < fuel) :
    ∃ s, readUntilError (slowReaderOf byteSourceReader) bufs fuel 0
        (newSlowReader ⟨data, plan, .EOF, eager⟩ delay) = some (.EOF, s) ∧
      s.slept * 32000 ≤ data.length ∧ data.length ≤ (s.slept + 1) * (31999 + B) := by
  refine Exists.elim (readUntilError_reads (slowReaderOf byteSourceReader) bufs
    (fun _ s => s.delay = delay ∧ s.wrappedReader.final = .EOF ∧
      0 ≤ s.dataBuffer ∧ s.dataBuffer ≤ 31999 + (B : Int) ∧
      (s.slept : Int) * 32000 + s.dataBuffer + s.wrappedReader.data.length ≤ data.length ∧
      (data.length : Int)
        ≤ (s.slept : Int) * (31999 + B) + s.dataBuffer + s.wrappedReader.data.length)
    (fun e s => e = .EOF ∧ s.slept * 32000 ≤ data.length ∧
      data.length ≤ (s.slept + 1) * (31999 + B))
    (fun s => s.wrappedReader.size) ?_ fuel 0 (newSlowReader ⟨data, plan, .EOF, eager⟩ delay)
    (by simp [newSlowReader]; omega) hfuel) ?_
  case refine_2 =>
    rintro e ⟨s, hrun, rfl, h⟩
    exact ⟨s, hrun, h⟩
  case refine_1 =>
    rintro i s ⟨hd, hf, h0, hB, hlo, hhi⟩
    obtain ⟨hfst, hsnd⟩ := slowReader.Read_fst byteSourceReader s (bufs i)
    obtain ⟨hdel, hcnt⟩ := slowReader.Read_counts byteSourceReader s (bufs i) (by omega)
    obtain ⟨h1, h2, _, h4, h5⟩ := ByteSource.Read_spec s.wrappedReader (bufs i)
    have hR : (slowReaderOf byteSourceReader).Read s (bufs i)
        = slowReader.Read byteSourceReader s (bufs i) := rfl
    have hBr : byteSourceReader.Read s.wrappedReader (bufs i)
        = s.wrappedReader.Read (bufs i) := rfl
    rw [hBr] at hfst hsnd hcnt
    rw [hR, hfst]
    have hlen : (s.wrappedReader.Read (bufs i)).1.n + (s.wrappedReader.Read (bufs i)).2.data.length
        = s.wrappedReader.data.length := by
      rw [ReadResult.n, ← List.length_append, h1]
    have hb := (hbufs i).2
    have hmul : ((s.slept : Int) + 1) * 32000 = s.slept * 32000 + 32000 := by ring
    have hmul2 : ((s.slept : Int) + 1) * (31999 + B) = s.slept * (31999 + B) + (31999 + B) := by
      ring
    have hinv : 0 ≤ (slowReader.Read byteSourceReader s (bufs i)).2.dataBuffer ∧
        (slowReader.Read byteSourceReader s (bufs i)).2.dataBuffer ≤ 31999 + (B : Int) ∧
        ((slowReader.Read byteSourceReader s (bufs i)).2.slept : Int) * 32000
          + (slowReader.Read byteSourceReader s (bufs i)).2.dataBuffer
          + (s.wrappedReader.Read (bufs i)).2.data.length ≤ data.length ∧
        (data.length : Int)
          ≤ ((slowReader.Read byteSourceReader s (bufs i)).2.slept : Int) * (31999 + B)
            + (slowReader.Read byteSourceReader s (bufs i)).2.dataBuffer
            + (s.wrappedReader.Read (bufs i)).2.data.length := by
      rcases hcnt with ⟨hge, hs, hdb⟩ | ⟨hlt, hs, hdb⟩
      · rw [hs, hdb]
        push_cast
        rw [hmul, hmul2]
        refine ⟨by positivity, by omega, by omega, by omega⟩
      · rw [hs, hdb]
        refine ⟨by positivity, by omega, by omega, by omega⟩
    rcases h5 with ⟨he, hlt⟩ | ⟨he, hnil⟩
    · left
      refine ⟨he, ?_, hdel.trans hd, ?_, ?_⟩
      · show (slowReader.Read byteSourceReader s (bufs i)).2.wrappedReader.size < _
        rw [hsnd]
        exact hlt (hbufs i).1
      · rw [hsnd]; exact h2.trans hf
      · rw [hsnd]; exact hinv
    · right
      refine ⟨_, he, hf, ?_⟩
      obtain ⟨i0, i1, i2, i3⟩ := hinv
      rw [hnil] at i2 i3
      simp only [List.length_nil, Nat.cast_zero, add_zero] at i2 i3
      constructor
      · have : ((slowReader.Read byteSourceReader s (bufs i)).2.slept : Int) * 32000
            ≤ data.length := by omega
        exact_mod_cast this
      · have : (data.length : Int)
            ≤ (((slowReader.Read byteSourceReader s (bufs i)).2.slept : Int) + 1) * (31999 + B) := by
          have hm : (((slowReader.Read byteSourceReader s (bufs i)).2.slept : Int) + 1) * (31999 + B)
              = ((slowReader.Read byteSourceReader s (bufs i)).2.slept : Int) * (31999 + B)
                + (31999 + B) := by ring
          rw [hm]
          omega
        exact_mod_cast this

/-- C6, amended, at a concrete input: the stream of 64000 bytes read with
buffers of 1000 bytes.  The bounds leave only one or two sleeps. -/
theorem slowReader_sleep_bounds_witness :
    (0 : Int) < 1 ∧ (∀ i : Nat, 0 < (fun _ => 1000) i ∧ (fun _ => 1000) i ≤ 1000) ∧
    longStream.data.length + longStream.plan.length < 64001 ∧
    ∃ s, readUntilError (slowReaderOf byteSourceReader) (fun _ => 1000) 64001 0
        (newSlowReader longStream 1) = some (.EOF, s) ∧
      s.slept * 32000 ≤ longStream.data.length ∧
      longStream.data.length ≤ (s.slept + 1) * (31999 + 1000) ∧
      1 ≤ s.slept ∧ s.slept ≤ 2 := by
  have hlen : longStream.data.length = 64000 := List.length_replicate _ _
  have hfuel : longStream.data.length + longStream.plan.length < 64001 := by
    rw [hlen]; exact Nat.lt_succ_self _
  obtain ⟨s, hrun, hlo, hhi⟩ := slowReader_sleep_bounds longStream.data longStream.plan
    longStream.eager 1 (fun _ => 1000) 1000 64001 Int.one_pos
    (fun _ => ⟨Nat.succ_pos _, Nat.le_refl _⟩) hfuel
  refine ⟨Int.one_pos, fun _ => ⟨Nat.succ_pos _, Nat.le_refl _⟩, hfuel, s, hrun, hlo, hhi, ?_, ?_⟩
  · rw [hlen] at hhi; omega
  · rw [hlen] at hlo; omega

theorem byteSourceReader_Read_replicate (k m len : Nat) (a : Byte) (f : GoError) (hk : 0 < k)
    (hmin : min len (k + m) = k) :
    ∃ l, l.length = k ∧
      byteSourceReader.Read ⟨List.replicate (k + m) a, [], f, false⟩ len
        = (⟨l, none⟩, ⟨List.replicate m a, [], f, false⟩) := by
  refine ⟨List.replicate k a, List.length_replicate _ _, ?_⟩
  obtain ⟨j, hj⟩ : ∃ j, k + m = j + 1 := ⟨k + m - 1, by omega⟩
  have h : List.replicate (j + 1) a = a :: List.replicate j a := rfl
  show ByteSource.Read _ _ = _
  unfold ByteSource.Read
  rw [hj] at hmin ⊢
  simp only [h]
  simp only [← h, List.take_replicate, List.drop_replicate, List.length_replicate,
    List.headD_nil, List.tail_nil, Bool.false_and, min_self, hmin]
  have : j + 1 - k = m := by omega
  simp [this]
  omega

theorem readUntilError_continue {σ : Type} (R : IOReader σ) (bufs : Nat → Nat) (k i : Nat)
    (s s1 : σ) (d : List Byte) (h : R.Read s (bufs i) = (⟨d, none⟩, s1)) :
    readUntilError R bufs (k + 1) i s = readUntilError R bufs k (i + 1) s1 := by
  rw [readUntilError, h]

theorem readUntilError_stop {σ : Type} (R : IOReader σ) (bufs : Nat → Nat) (k i : Nat)
    (s s1 : σ) (d : List Byte) (e : GoError) (h : R.Read s (bufs i) = (⟨d, some e⟩, s1)) :
    readUntilError R bufs (k + 1) i s = some (e, s1) := by
  rw [readUntilError, h]

theorem slowReader.Read_below {σ : Type} (R : IOReader σ) (r r1 : σ) (db delay : Int)
    (slept len : Nat) (rr : ReadResult) (hdb : db < 32000) (h : R.Read r len = (rr, r1)) :
    (slowReaderOf R).Read ⟨r, db, delay, slept⟩ len = (rr, ⟨r1, db + rr.n, delay, slept⟩) := by
  have hc : ¬ (delay > 0 ∧ db ≥ 32000) := by omega
  simp only [slowReaderOf, slowReader.Read, hc, if_false, h]

theorem slowReader.Read_above {σ : Type} (R : IOReader σ) (r r1 : σ) (db delay : Int)
    (slept len : Nat) (rr : ReadResult) (hd : 0 < delay) (hdb : 32000 ≤ db)
    (h : R.Read r len = (rr, r1)) :
    (slowReaderOf R).Read ⟨r, db, delay, slept⟩ len = (rr, ⟨r1, 0 + rr.n, delay, slept + 1⟩) := by
  have hc : delay > 0 ∧ db ≥ 32000 := ⟨hd, hdb⟩
  simp only [slowReaderOf, slowReader.Read, hc, and_self, if_true, h]

theorem slowReader_one_sleep (m : Nat) (a : Byte) (h1 : 0 < m) (h2 : m < 32000) :
    (readUntilError (slowReaderOf byteSourceReader) (fun _ => 32 * 1024) 4 0
        (newSlowReader ⟨List.replicate (32768 + m) a, [], .EOF, false⟩ 1)).map
          (fun r => (r.1, r.2.slept))
      = some (.EOF, 1) := by
  obtain ⟨l1, hl1, r1⟩ := byteSourceReader_Read_replicate 32768 m (32 * 1024) a .EOF
    (by omega) (by omega)
  obtain ⟨l2, hl2, r2⟩ := byteSourceReader_Read_replicate m 0 (32 * 1024) a .EOF h1 (by omega)
  rw [Nat.add_zero] at r2
  have r3 : byteSourceReader.Read ⟨List.replicate 0 a, [], .EOF, false⟩ (32 * 1024)
      = (⟨[], some .EOF⟩, ⟨List.replicate 0 a, [], .EOF, false⟩) := rfl
  have c1 : (32000 : Int) ≤ 0 + ((⟨l1, none⟩ : ReadResult).n : Int) := by
    simp only [ReadResult.n]; omega
  have c2 : (0 : Int) + ((⟨l2, none⟩ : ReadResult).n : Int) < 32000 := by
    simp only [ReadResult.n]; omega
  have e1 := slowReader.Read_below byteSourceReader ⟨List.replicate (32768 + m) a, [], .EOF, false⟩
      ⟨List.replicate m a, [], .EOF, false⟩ 0 1 0 (32 * 1024) ⟨l1, none⟩ (by omega) r1
  have e2 := slowReader.Read_above byteSourceReader ⟨List.replicate m a, [], .EOF, false⟩
      ⟨List.replicate 0 a, [], .EOF, false⟩ (0 + ((⟨l1, none⟩ : ReadResult).n : Int)) 1 0
      (32 * 1024) ⟨l2, none⟩ Int.one_pos c1 r2
  have e3 := slowReader.Read_below byteSourceReader ⟨List.replicate 0 a, [], .EOF, false⟩
      ⟨List.replicate 0 a, [], .EOF, false⟩ (0 + ((⟨l2, none⟩ : ReadResult).n : Int)) 1 (0 + 1)
      (32 * 1024) ⟨[], some .EOF⟩ c2 r3
  rw [newSlowReader, readUntilError_continue _ (fun _ => 32 * 1024) 3 0 _ _ l1 e1,
    readUntilError_continue _ (fun _ => 32 * 1024) 2 1 _ _ l2 e2,
    readUntilError_stop _ (fun _ => 32 * 1024) 1 2 _ _ [] .EOF e3]
  rfl

/-- C6 fails on the code at this input: a stream of 64000 bytes read with
buffers of `32 * 1024` bytes, as `io.Copy` does, and a positive delay.  The
first call returns 32768 bytes, the second sleeps and returns the other
31232 bytes, the third reports `io.EOF` with the counter at 31232, below the
threshold: one sleep, less than `64000 / 32000 = 2`. -/
theorem slowReader_sleeps_below_quotient :
    longStream.data.length = 64000 ∧
    (readUntilError (slowReaderOf byteSourceReader) (fun _ => 32 * 1024) 4 0
        (newSlowReader longStream 1)).map (fun r => (r.1, r.2.slept)) = some (.EOF, 1) ∧
    1 < 64000 / 32000 :=
  ⟨List.length_replicate _ _, slowReader_one_sleep 31232 0 (by omega) (by omega), by omega⟩

/-! ## Server: copying a part into a buffer and into the destination -/

theorem stepDst_bufferWriter (t : List Byte) (rr : ReadResult) :
    stepDst bufferWriter t rr = t ++ rr.data := by
  unfold stepDst
  split_ifs with h
  · rfl
  · have : rr.data = [] := by
      cases hd : rr.data with
      | nil => rfl
      | cons a l => simp [ReadResult.n, hd] at h
    simp [this]

theorem bufferCopy_total (body : ByteSource) (fuel : Nat) (h : body.size < fuel) :
    ∃ res, ioCopy bufferWriter byteSourceReader fuel [] body = some res ∧
      (body.final = .EOF → res.err = none ∧ res.dst = body.data) := by
  refine ioCopyBuffer_reads bufferWriter byteSourceReader (32 * 1024)
    (fun t s _ => t ++ s.data = body.data ∧ s.final = body.final)
    (fun e t _ _ => body.final = .EOF → e = none ∧ t = body.data)
    ByteSource.size ?_ fuel [] body 0 ⟨rfl, rfl⟩ h
  intro t s w ⟨hd, hf⟩
  obtain ⟨h1, h2, _, _, h5⟩ := ByteSource.Read_spec s (32 * 1024)
  refine ⟨fun _ => rfl, ?_⟩
  simp only [stepDst_bufferWriter]
  rcases h5 with ⟨he, hlt⟩ | ⟨he, hnil⟩
  · left
    refine ⟨he, hlt (by norm_num), ?_, h2.trans hf⟩
    show (t ++ (s.Read (32 * 1024)).1.data) ++ (s.Read (32 * 1024)).2.data = body.data
    rw [List.append_assoc, h1, hd]
  · right
    refine ⟨s.final, he, ?_⟩
    intro hE
    rw [hf, hE]
    refine ⟨by simp, ?_⟩
    show t ++ (s.Read (32 * 1024)).1.data = body.data
    rw [← hd, ← h1, hnil, List.append_nil]

theorem stepDst_fileWriter (t : FileSystem) (rr : ReadResult) (got : List Byte)
    (hw : t.writable = none) (hd : t.dest = some got) :
    stepDst fileWriter t rr = { t with dest := some (got ++ rr.data) } := by
  unfold stepDst
  split_ifs with h
  · simp [fileWriter, fileWrite, hw, hd]
  · rw [rr.data_of_n_zero h, List.append_nil, ← hd]

theorem fileCopy_ok (body : ByteSource) (delay : Int) (t0 : FileSystem) (fuel : Nat)
    (hfuel : body.size < fuel) (hd0 : t0.dest = some []) (hw : t0.writable = none)
    (hE : body.final = .EOF) :
    ∃ res, ioCopy fileWriter (slowReaderOf byteSourceReader) fuel t0
        (newSlowReader body delay) = some res ∧
      res.err = none ∧ res.dst = { t0 with dest := some body.data } := by
  have h0 : t0 = { t0 with dest := some [] } := by
    rcases t0 with ⟨d, c, wr, n⟩
    simp only at hd0
    rw [hd0]
  refine ioCopyBuffer_reads fileWriter (slowReaderOf byteSourceReader) (32 * 1024)
    (fun t s _ => ∃ got, t = { t0 with dest := some got } ∧
      got ++ s.wrappedReader.data = body.data ∧ s.wrappedReader.final = .EOF)
    (fun e t _ _ => e = none ∧ t = { t0 with dest := some body.data })
    (fun s => s.wrappedReader.size) ?_ fuel _ _ 0 ⟨[], h0, rfl, hE⟩ hfuel
  rintro t s w ⟨got, rfl, hd, hf⟩
  obtain ⟨hfst, hsnd⟩ := slowReader.Read_fst byteSourceReader s (32 * 1024)
  obtain ⟨h1, h2, _, _, h5⟩ := ByteSource.Read_spec s.wrappedReader (32 * 1024)
  have hR : (slowReaderOf byteSourceReader).Read s (32 * 1024)
      = slowReader.Read byteSourceReader s (32 * 1024) := rfl
  have hB : byteSourceReader.Read s.wrappedReader (32 * 1024)
      = s.wrappedReader.Read (32 * 1024) := rfl
  rw [hR, hfst]
  dsimp only
  rw [hsnd, hB]
  refine ⟨fun _ => by simp [fileWriter, fileWrite, hw, ReadResult.n], ?_⟩
  rw [stepDst_fileWriter { t0 with dest := some got } _ got hw rfl]
  rcases h5 with ⟨he, hlt⟩ | ⟨he, hnil⟩
  · left
    refine ⟨he, hlt (by norm_num), got ++ (s.wrappedReader.Read (32 * 1024)).1.data, rfl, ?_,
      h2.trans hf⟩
    rw [List.append_assoc, h1, hd]
  · right
    refine ⟨s.wrappedReader.final, he, ?_⟩
    rw [hf]
    refine ⟨by simp, ?_⟩
    rw [← hd, ← h1, hnil, List.append_nil]

theorem uploadStreamerToFixedLocation_ok (body : ByteSource) (delay : Int) (fs : FileSystem)
    (fuel : Nat) (hfuel : body.size < fuel) (hc : fs.createErr = none)
    (hw : fs.writable = none) (hE : body.final = .EOF) :
    ∃ sr, uploadStreamerToFixedLocation (slowReaderOf byteSourceReader) fuel
        (newSlowReader body delay) fs
      = some (.ok fixedFileLocation, sr,
          { fs with dest := some body.data, creates := fs.creates + 1 }) := by
  have hcr : osCreate fs = (none, { fs with dest := some [], creates := fs.creates + 1 }) := by
    simp [osCreate, hc]
  obtain ⟨res, h1, h2, h3⟩ := fileCopy_ok body delay (osCreate fs).2 fuel
    hfuel (by rw [hcr]) (by rw [hcr]; exact hw) hE
  refine ⟨res.src, ?_⟩
  unfold uploadStreamerToFixedLocation
  rw [hcr] at h1 h3 ⊢
  simp only at h1 h3 ⊢
  rw [h1]
  simp only [h2, h3]

/-! ## Server: the upload handler -/

theorem ResponseWriter.Write_status (w : ResponseWriter) (data : String) :
    (w.Write data).status = some (w.status.getD 200) := by
  rcases w with ⟨_ | c, b⟩ <;> rfl

theorem ResponseWriter.WriteHeader_status (w : ResponseWriter) (code : Nat) :
    (w.WriteHeader code).status = some (w.status.getD code) := by
  rcases w with ⟨_ | c, b⟩ <;> rfl

theorem httpError_status (w : ResponseWriter) (msg : String) (code : Nat) :
    (httpError w msg code).status = some (w.status.getD code) := by
  rcases w with ⟨_ | c, b⟩ <;> rfl

theorem uploadHandler_multipart (fuel : Nat) (ct : String) (mr : MultipartReader)
    (fs : FileSystem) (delay : Int)
    (hct : stringsHasPrefix ct "multipart/form-data" = true) :
    uploadHandler fuel ⟨ct, .ok mr⟩ (Server.start fs delay)
      = uploadLoop fuel mr.parts mr.final "" []
          { w := ⟨none, ""⟩, fs := fs, injectedUploadDelay := delay, slept := 0, readers := 1,
            nextParts := 0, attributes := [] } := by
  simp [uploadHandler, hct, Server.start]

/-- C5: a request whose `Content-Type` does not start with
`multipart/form-data` (the empty value of an absent header included) is
answered 415; no multipart reader is made, `NextPart` is never called, and
the file system is left as it was: no `os.Create`, no write. -/
theorem uploadHandler_unsupported_media_type (fuel : Nat) (r : Request) (fs : FileSystem)
    (delay : Int) (h : stringsHasPrefix r.contentType "multipart/form-data" = false) :
    ∃ sv, uploadHandler fuel r (Server.start fs delay) = some sv ∧
      sv.w.seen = 415 ∧ sv.readers = 0 ∧ sv.nextParts = 0 ∧ sv.fs = fs ∧ sv.slept = 0 := by
  refine ⟨_, by simp [uploadHandler, h]; rfl, ?_⟩
  simp [Server.start, httpError, ResponseWriter.Write, ResponseWriter.WriteHeader,
    ResponseWriter.seen, StatusUnsupportedMediaType]

/-- C5, at a concrete input: a request without `Content-Type` header that
carries a well-formed upload. -/
theorem uploadHandler_unsupported_media_type_witness :
    stringsHasPrefix "" "multipart/form-data" = false ∧
    ∃ sv, uploadHandler 5
        ⟨"", .ok ⟨[⟨"object", "x.txt", sampleFile⟩], .EOF⟩⟩ (Server.start healthyFs 0) = some sv ∧
      sv.w.seen = 415 ∧ sv.readers = 0 ∧ sv.nextParts = 0 ∧ sv.fs = healthyFs ∧ sv.slept = 0 :=
  ⟨by decide, uploadHandler_unsupported_media_type 5 _ healthyFs 0 (by decide)⟩

theorem uploadLoop_no_object (fuel : Nat) (parts : List Part) :
    ∀ (final : GoError) (attributes : List (String × List Byte)) (sv : Server),
    (∀ p ∈ parts, p.formName ≠ "object" ∧ p.body.size < fuel) →
    sv.w.status = none →
    ∃ sv1, uploadLoop fuel parts final "" attributes sv = some sv1 ∧
      sv1.w.status = some 400 ∧ sv1.fs = sv.fs ∧ sv1.slept = sv.slept := by
  induction parts with
  | nil =>
    intro final attrs sv _ hst
    by_cases hf : final = .EOF
    · refine ⟨uploadFinish "" attrs { sv with nextParts := sv.nextParts + 1 },
        by simp [uploadLoop, hf], ?_, rfl, rfl⟩
      simp [uploadFinish, httpError_status, hst, StatusBadRequest]
    · refine ⟨{ sv with
          nextParts := sv.nextParts + 1,
          w := httpError sv.w "Error parsing request (next part)" StatusBadRequest },
        by simp only [uploadLoop, hf, if_false], ?_, rfl, rfl⟩
      simp [httpError_status, hst, StatusBadRequest]
  | cons p rest ih =>
    intro final attrs sv hp hst
    obtain ⟨hobj, hfuel⟩ := hp p (List.mem_cons_self _ _)
    obtain ⟨res, hcp, _⟩ := bufferCopy_total p.body fuel hfuel
    simp only [uploadLoop, hobj, if_false, hcp]
    cases herr : res.err with
    | some e =>
      refine ⟨_, rfl, ?_, rfl, rfl⟩
      simp [httpError_status, hst, StatusBadRequest]
    | none =>
      exact ih final (mapSet attrs p.formName res.dst) { sv with nextParts := sv.nextParts + 1 }
        (fun q hq => hp q (List.mem_cons_of_mem _ hq)) hst

/-- C4: a multipart body none of whose parts has the form name `object` (the
body without parts included) is answered 400, and the file system is left as
it was: `os.Create` is not called and the destination file is neither created
nor truncated.  This holds whether or not the parts are readable and whether
or not the body ends with its closing boundary. -/
theorem uploadHandler_no_object (fuel : Nat) (ct : String) (mr : MultipartReader)
    (fs : FileSystem) (delay : Int)
    (hct : stringsHasPrefix ct "multipart/form-data" = true)
    (hparts : ∀ p ∈ mr.parts, p.formName ≠ "object" ∧ p.body.size < fuel) :
    ∃ sv, uploadHandler fuel ⟨ct, .ok mr⟩ (Server.start fs delay) = some sv ∧
      sv.w.seen = 400 ∧ sv.fs = fs ∧ sv.fs.creates = fs.creates ∧ sv.fs.dest = fs.dest := by
  obtain ⟨sv, h1, h2, h3, _⟩ := uploadLoop_no_object fuel mr.parts mr.final []
    { w := ⟨none, ""⟩, fs := fs, injectedUploadDelay := delay, slept := 0, readers := 1,
      nextParts := 0, attributes := [] } hparts rfl
  refine ⟨sv, ?_, by simp [ResponseWriter.seen, h2], h3, by rw [h3], by rw [h3]⟩
  rw [uploadHandler_multipart fuel ct mr fs delay hct, h1]

/-- C4, at concrete inputs: a body with two attribute fields, and the body
without parts, on a file system where the destination holds an older upload. -/
theorem uploadHandler_no_object_witness :
    (∃ sv, uploadHandler 8 ⟨"multipart/form-data; boundary=b", .ok fieldsOnly⟩
        (Server.start { healthyFs with dest := some [7] } 0) = some sv ∧
      sv.w.seen = 400 ∧ sv.fs = { healthyFs with dest := some [7] } ∧
      sv.fs.creates = 0 ∧ sv.fs.dest = some [7]) ∧
    (∃ sv, uploadHandler 8 ⟨"multipart/form-data; boundary=b", .ok ⟨[], .EOF⟩⟩
        (Server.start healthyFs 0) = some sv ∧
      sv.w.seen = 400 ∧ sv.fs = healthyFs ∧ sv.fs.creates = 0 ∧ sv.fs.dest = none) :=
  ⟨uploadHandler_no_object 8 _ fieldsOnly { healthyFs with dest := some [7] } 0
      (by decide) (by decide),
   uploadHandler_no_object 8 _ ⟨[], .EOF⟩ healthyFs 0 (by decide) (by decide)⟩

theorem uploadLoop_readable (fuel : Nat) (parts : List Part) :
    ∀ (uploadedFileName : String) (attributes : List (String × List Byte)) (sv : Server),
    (∀ p ∈ parts, p.body.final = .EOF ∧ p.body.size < fuel ∧
      (p.formName = "object" → p.fileName ≠ "")) →
    sv.fs.createErr = none → sv.fs.writable = none →
    ∃ sv1, uploadLoop fuel parts .EOF uploadedFileName attributes sv = some sv1 ∧
      sv1.fs = storedAfter parts sv.fs ∧
      sv1.w.status =
        if objectParts parts = [] then
          (if uploadedFileName = "" then some (sv.w.status.getD 400)
           else some (sv.w.status.getD 200))
        else some (sv.w.status.getD 200) := by
  induction parts with
  | nil =>
    intro ufn attrs sv _ _ _
    refine ⟨uploadFinish ufn attrs { sv with nextParts := sv.nextParts + 1 },
      by simp [uploadLoop], ?_, ?_⟩
    · simp only [uploadFinish, storedAfter, List.foldl_nil]
      split_ifs <;> rfl
    · simp only [uploadFinish, objectParts, List.filter_nil, if_true]
      split_ifs
      · exact httpError_status _ _ _
      · exact ResponseWriter.WriteHeader_status _ _
  | cons p rest ih =>
    intro ufn attrs sv hp hc hw
    obtain ⟨hE, hfuel, hname⟩ := hp p (List.mem_cons_self _ _)
    have hrest : ∀ q ∈ rest, q.body.final = .EOF ∧ q.body.size < fuel ∧
        (q.formName = "object" → q.fileName ≠ "") :=
      fun q hq => hp q (List.mem_cons_of_mem _ hq)
    by_cases hobj : p.formName = "object"
    · obtain ⟨sr, hup⟩ := uploadStreamerToFixedLocation_ok p.body sv.injectedUploadDelay sv.fs fuel
        hfuel hc hw hE
      simp only [uploadLoop, hobj, if_true, hname hobj, if_false, hup]
      obtain ⟨sv1, h1, h2, h3⟩ := ih fixedFileLocation
        (mapSet attrs "filename" (goBytes p.fileName))
        { sv with
          nextParts := sv.nextParts + 1,
          fs := { sv.fs with dest := some p.body.data, creates := sv.fs.creates + 1 },
          slept := sv.slept + sr.slept,
          w := sv.w.Write ("File '" ++ p.fileName ++ "' uploaded successfully\n") }
        hrest hc hw
      refine ⟨sv1, h1, ?_, ?_⟩
      · rw [h2]
        simp [storedAfter, hobj]
      · rw [h3]
        have hne : objectParts (p :: rest) ≠ [] := by simp [objectParts, hobj]
        have hfix : fixedFileLocation ≠ "" := by decide
        simp only [hne, hfix, if_false, ResponseWriter.Write_status, Option.getD_some]
        split_ifs <;> rfl
    · obtain ⟨res, hcp, hres⟩ := bufferCopy_total p.body fuel hfuel
      obtain ⟨herr, _⟩ := hres hE
      simp only [uploadLoop, hobj, if_false, hcp, herr]
      obtain ⟨sv1, h1, h2, h3⟩ := ih ufn (mapSet attrs p.formName res.dst)
        { sv with nextParts := sv.nextParts + 1 } hrest hc hw
      refine ⟨sv1, h1, ?_, ?_⟩
      · rw [h2]
        simp [storedAfter, hobj]
      · rw [h3]
        simp [objectParts, hobj]

/-- C3 fails on the code at this input: a body with two object parts, both
readable and with a file name, on a healthy file system, is answered 200; the
second part has replaced the first in the destination file. -/
theorem uploadHandler_two_objects_accepted :
    (objectParts twoObjects.parts).length = 2 ∧
    (uploadHandler 8 (uploadRequest twoObjects) (Server.start healthyFs 0)).map
        (fun sv => (sv.w.seen, sv.fs.dest, sv.fs.creates))
      = some (200, some [3], 2) := by
  decide

/-- C3, amended: when the handler reads the body to the end of the parts
(every part readable, every object part with a file name, closing boundary
present) and the destination can be created and written, it answers 200 if
and only if the body holds at least one object part, and 400 if and only if it
holds none; the destination is what storing the object parts in turn leaves. -/
theorem uploadHandler_status_by_objects (fuel : Nat) (ct : String) (mr : MultipartReader)
    (fs : FileSystem) (delay : Int)
    (hct : stringsHasPrefix ct "multipart/form-data" = true)
    (hfinal : mr.final = .EOF)
    (hparts : ∀ p ∈ mr.parts, p.body.final = .EOF ∧ p.body.size < fuel ∧
      (p.formName = "object" → p.fileName ≠ ""))
    (hc : fs.createErr = none) (hw : fs.writable = none) :
    ∃ sv, uploadHandler fuel ⟨ct, .ok mr⟩ (Server.start fs delay) = some sv ∧
      (sv.w.seen = 200 ↔ 1 ≤ (objectParts mr.parts).length) ∧
      (sv.w.seen = 400 ↔ (objectParts mr.parts).length = 0) ∧
      sv.fs = storedAfter mr.parts fs := by
  obtain ⟨sv, h1, h2, h3⟩ := uploadLoop_readable fuel mr.parts "" []
    { w := ⟨none, ""⟩, fs := fs, injectedUploadDelay := delay, slept := 0, readers := 1,
      nextParts := 0, attributes := [] } hparts hc hw
  refine ⟨sv, ?_, ?_, ?_, h2⟩
  · rw [uploadHandler_multipart fuel ct mr fs delay hct, hfinal, h1]
  · by_cases hn : objectParts mr.parts = []
    · simp [ResponseWriter.seen, h3, hn]
    · have : 1 ≤ (objectParts mr.parts).length := List.length_pos.mpr hn
      simp [ResponseWriter.seen, h3, hn, this]
  · by_cases hn : objectParts mr.parts = []
    · simp [ResponseWriter.seen, h3, hn]
    · simp [ResponseWriter.seen, h3, hn]

/-- C3, amended, at a concrete input: the request with the content type
`multipart/form-data; boundary=b` and the body with two object parts is
answered 200, and the destination holds the second part. -/
theorem uploadHandler_status_by_objects_witness :
    (objectParts twoObjects.parts).length = 2 ∧
    ∃ sv, uploadHandler 8 ⟨"multipart/form-data; boundary=b", .ok twoObjects⟩
        (Server.start healthyFs 0) = some sv ∧
      (sv.w.seen = 200 ↔ 1 ≤ (objectParts twoObjects.parts).length) ∧
      (sv.w.seen = 400 ↔ (objectParts twoObjects.parts).length = 0) ∧
      sv.fs = storedAfter twoObjects.parts healthyFs :=
  ⟨by decide,
    uploadHandler_status_by_objects 8 "multipart/form-data; boundary=b" twoObjects healthyFs 0
      (by decide) (by decide) (by decide) (by decide) (by decide)⟩

/-- C2 fails on the code at this input: the body holds an object part with a
file name followed by an object part with an empty file name.  The handler
stores the first part and writes its success line, which fixes the status
200; its later `http.Error(w, ..., 400)` for the second part only adds a line
to the body.  The client sees 200, and the file of the first part stays. -/
theorem uploadHandler_unnamed_object_after_upload :
    (∃ p ∈ namedThenUnnamed.parts, p.formName = "object" ∧ p.fileName = "") ∧
    (uploadHandler 8 (uploadRequest namedThenUnnamed) (Server.start healthyFs 0)).map
        (fun sv => (sv.w, sv.fs.dest))
      = some (⟨some 200,
          "File 'a.txt' uploaded successfully\nCannot process object without filename\n"⟩,
          some [1, 2]) := by
  decide

theorem uploadLoop_unnamed_object (fuel : Nat) (p : Part) (post : List Part) (final : GoError)
    (hobj : p.formName = "object") (hname : p.fileName = "") (pre : List Part) :
    ∀ (attributes : List (String × List Byte)) (sv : Server),
    (∀ q ∈ pre, q.formName ≠ "object" ∧ q.body.size < fuel) →
    sv.w.status = none →
    ∃ sv1, uploadLoop fuel (pre ++ p :: post) final "" attributes sv = some sv1 ∧
      sv1.w.status = some 400 ∧ sv1.fs = sv.fs := by
  induction pre with
  | nil =>
    intro attrs sv _ hst
    refine ⟨{ sv with
        nextParts := sv.nextParts + 1,
        w := httpError sv.w "Cannot process object without filename" StatusBadRequest },
      by simp [uploadLoop, hobj, hname], ?_, rfl⟩
    simp [httpError_status, hst, StatusBadRequest]
  | cons q rest ih =>
    intro attrs sv hq hst
    obtain ⟨hnobj, hfuel⟩ := hq q (List.mem_cons_self _ _)
    obtain ⟨res, hcp, _⟩ := bufferCopy_total q.body fuel hfuel
    simp only [List.cons_append, uploadLoop, hnobj, if_false, hcp]
    cases herr : res.err with
    | some e =>
      refine ⟨_, rfl, ?_, rfl⟩
      simp [httpError_status, hst, StatusBadRequest]
    | none =>
      exact ih (mapSet attrs q.formName res.dst) { sv with nextParts := sv.nextParts + 1 }
        (fun x hx => hq x (List.mem_cons_of_mem _ hx)) hst

/-- What the handler does by design with an object part that has no file name:
when the first part with form name `object` has an empty file name, whatever
follows it, the request is answered 400 and the file system is left as it
was. -/
theorem uploadHandler_first_object_unnamed (fuel : Nat) (ct : String) (pre post : List Part)
    (p : Part) (final : GoError) (fs : FileSystem) (delay : Int)
    (hct : stringsHasPrefix ct "multipart/form-data" = true)
    (hpre : ∀ q ∈ pre, q.formName ≠ "object" ∧ q.body.size < fuel)
    (hobj : p.formName = "object") (hname : p.fileName = "") :
    ∃ sv, uploadHandler fuel ⟨ct, .ok ⟨pre ++ p :: post, final⟩⟩ (Server.start fs delay)
        = some sv ∧
      sv.w.seen = 400 ∧ sv.fs = fs := by
  obtain ⟨sv, h1, h2, h3⟩ := uploadLoop_unnamed_object fuel p post final hobj hname pre []
    { w := ⟨none, ""⟩, fs := fs, injectedUploadDelay := delay, slept := 0, readers := 1,
      nextParts := 0, attributes := [] } hpre rfl
  refine ⟨sv, ?_, by simp [ResponseWriter.seen, h2], h3⟩
  rw [uploadHandler_multipart fuel ct _ fs delay hct, h1]

/-! ## Client: progress samples -/

theorem clientCopy_progress (fuel : Nat) (pipe : Pipe) (ctx : Context) (file : ByteSource)
    (hfuel : file.size < fuel) :
    ∃ res, ioCopy partWriter (readerWithProgressOf (ctxAwareReaderOf byteSourceReader)) fuel pipe
        (newReaderWithProgress [] (newCtxAwareReader ctx file)) = some res ∧
      (∀ x ∈ res.src.progress, 0 ≤ x) ∧
      (res.err = none → res.src.progress.sum = file.data.length) := by
  refine ioCopyBuffer_total partWriter (readerWithProgressOf (ctxAwareReaderOf byteSourceReader))
    (32 * 1024)
    (fun _ s _ => s.progress.sum + s.wrappedReader.wrappedReader.data.length = file.data.length)
    (fun _ s _ => s.progress.sum = file.data.length)
    (fun s => ∀ x ∈ s.progress, 0 ≤ x)
    (fun s => s.wrappedReader.wrappedReader.size) ?_ ?_ fuel pipe _ 0 ?_ ?_ hfuel
  · intro s hs
    obtain ⟨h1, h2⟩ := clientReader_Read s (32 * 1024)
    cases hd : s.wrappedReader.ctx.isDone with
    | true =>
      rw [h1 hd]
      intro x hx
      rcases List.mem_append.mp hx with h | h
      · exact hs x h
      · simp at h; omega
    | false =>
      rw [h2 hd]
      intro x hx
      rcases List.mem_append.mp hx with h | h
      · exact hs x h
      · simp at h; omega
  · intro t s w hP
    obtain ⟨h1, h2⟩ := clientReader_Read s (32 * 1024)
    obtain ⟨r1, _, _, _, r5⟩ := ByteSource.Read_spec s.wrappedReader.wrappedReader (32 * 1024)
    cases hd : s.wrappedReader.ctx.isDone with
    | true =>
      rw [h1 hd]
      refine ⟨fun h => by simp at h, fun _ => ⟨fun h => by simp at h, fun h => ?_⟩⟩
      simp [errCancelled] at h
    | false =>
      rw [h2 hd]
      have hlen : ((s.wrappedReader.wrappedReader.Read (32 * 1024)).1.n : Int)
          + (s.wrappedReader.wrappedReader.Read (32 * 1024)).2.data.length
          = s.wrappedReader.wrappedReader.data.length := by
        rw [ReadResult.n, ← Nat.cast_add, ← List.length_append, r1]
      refine ⟨fun he => ?_, fun _ => ⟨fun _ => ?_, fun he => ?_⟩⟩
      · rcases r5 with ⟨_, hlt⟩ | ⟨he2, _⟩
        · exact hlt (by norm_num)
        · simp only at he
          rw [he] at he2
          exact absurd he2 (by simp)
      · simp only [List.sum_append, List.sum_singleton]
        omega
      · simp only [List.sum_append, List.sum_singleton]
        rcases r5 with ⟨he2, _⟩ | ⟨_, hnil⟩
        · simp only at he
          rw [he] at he2
          exact absurd he2 (by simp)
        · rw [hnil] at hlen
          simp only [List.length_nil, Nat.cast_zero, add_zero] at hlen
          omega
  · simp [newReaderWithProgress, newCtxAwareReader]
  · simp [newReaderWithProgress]

/-- C7: for every file content and every granularity of the reads of the file
(every plan of short reads, with the end reported together with the last
bytes or separately), the copy of the encoder returns, every sample sent on
the progress channel is non-negative, and when the copy returns without
error (so without cancellation) the samples sum to exactly the size of the
file in bytes. -/
theorem copyFileData_progress (fuel : Nat) (c : Client) (hfuel : c.file.size < fuel) :
    ∃ (err : Option GoError) (c1 : Client), copyFileData fuel c = some (err, c1) ∧
      (∀ x ∈ c1.progression, 0 ≤ x) ∧
      (err = none → c1.progression.sum = c.file.data.length ∧
        c1.bar = c.bar + c.file.data.length) := by
  obtain ⟨res, h1, h2, h3⟩ := clientCopy_progress fuel c.pipe c.ctx c.file hfuel
  simp only [copyFileData, h1]
  exact ⟨res.err, _, rfl, h2, fun h => ⟨h3 h, by simp only [h3 h]⟩⟩

/-- C7, at a concrete input: a file of three bytes read two bytes at a time;
the copy returns without error, having sent the samples 2, 1 and 0. -/
theorem copyFileData_progress_witness :
    sampleClient.file.size < 8 ∧
    (copyFileData 8 sampleClient).map (fun r => (r.1, r.2.progression)) = some (none, [2, 1, 0]) ∧
    ∃ (err : Option GoError) (c1 : Client), copyFileData 8 sampleClient = some (err, c1) ∧
      (∀ x ∈ c1.progression, 0 ≤ x) ∧
      (err = none → c1.progression.sum = sampleClient.file.data.length ∧
        c1.bar = sampleClient.bar + sampleClient.file.data.length) :=
  ⟨by decide, by decide, copyFileData_progress 8 sampleClient (by decide)⟩

/-! ## Client: cancellation before the first read -/

theorem copyFileData_cancelled (k : Nat) (c : Client) (hctx : c.ctx.isDone = true) :
    copyFileData (k + 1) c
      = some (some errCancelled,
          { c with progression := [0], progressionClosed := true, bar := c.bar + 0 }) := by
  have hread := (clientReader_Read (newReaderWithProgress [] (newCtxAwareReader c.ctx c.file))
    (32 * 1024)).1 hctx
  simp only [copyFileData, ioCopy, ioCopyBuffer, hread, ReadResult.n]
  simp [newReaderWithProgress, newCtxAwareReader, errCancelled]

theorem Pipe.put_spec (p : Pipe) (f : Frame) :
    (p.put f).2.closed = p.closed ∧
    (((p.put f).1 = none ∧ (p.put f).2.frames = p.frames ++ [f]) ∨
     ((p.put f).1 ≠ none ∧ (p.put f).2.frames = p.frames)) := by
  unfold Pipe.put
  rcases p with ⟨fr, _ | _ | k, cl⟩ <;> simp

theorem writeFields_frames (attributes : List (String × List Byte)) :
    ∀ p : Pipe, ∃ sent : List Frame,
      (writeFields attributes p).2.frames = p.frames ++ sent ∧
      (writeFields attributes p).2.closed = p.closed ∧
      (∀ f ∈ sent, f ≠ Frame.closing ∧ ∀ b, f ≠ Frame.data b) := by
  induction attributes with
  | nil => intro p; exact ⟨[], by simp [writeFields], rfl, by simp⟩
  | cons kv rest ih =>
    intro p
    rcases kv with ⟨key, value⟩
    obtain ⟨hc, hput⟩ := Pipe.put_spec p (.field key value)
    rw [writeFields]
    rcases hp : p.put (.field key value) with ⟨_ | err, p1⟩
    · rw [hp] at hc hput
      simp only at hc hput ⊢
      rcases hput with ⟨_, hfr⟩ | ⟨h, _⟩
      · obtain ⟨sent, h1, h2, h3⟩ := ih p1
        refine ⟨Frame.field key value :: sent, ?_, h2.trans hc, ?_⟩
        · rw [h1, hfr]; simp
        · intro f hf
          rcases List.mem_cons.mp hf with rfl | hf
          · simp
          · exact h3 f hf
      · exact absurd rfl h
    · rw [hp] at hc hput
      simp only at hc hput ⊢
      rcases hput with ⟨h, _⟩ | ⟨_, hfr⟩
      · simp at h
      · exact ⟨[], by simp [hfr], hc, by simp⟩

theorem writeFields_ok (attributes : List (String × List Byte)) :
    ∀ p : Pipe, p.accepts = none →
      writeFields attributes p
        = (none, { p with frames := p.frames ++ attributes.map (fun kv => Frame.field kv.1 kv.2) }) := by
  induction attributes with
  | nil => intro p _; simp [writeFields]
  | cons kv rest ih =>
    intro p hp
    rcases kv with ⟨key, value⟩
    simp only [writeFields, Pipe.put, hp]
    rw [ih _ rfl]
    simp

theorem Client.fail_spec (c : Client) (msg : String) (err : GoError)
    (hclosed : c.pipe.closed = none) :
    (c.fail msg err).errCh = c.errCh ++ [.wrap msg err] ∧
    (c.fail msg err).pipe.closed = some (some (.wrap msg err)) ∧
    (c.fail msg err).pipe.frames = c.pipe.frames ∧
    (c.fail msg err).file = c.file := by
  simp [Client.fail, Pipe.CloseWithError, Pipe.Close, hclosed]

/-- C8: when the context is cancelled before the first read of the file, for
every file and every list of attributes the encoder task fails: it sends
exactly one error on its error channel and closes the write end of the pipe
with that error; the file is left unread; no byte is written into the object
part; and the multipart writer is not closed, so the frames handed to the pipe
hold neither a data frame nor the trailing boundary.  When no write to the
pipe fails and the file opens, that error is the cancellation error, wrapped
as `failed to copy file data`, and the frames are the attribute fields and
the header of the object part. -/
theorem encoder_cancelled (fuel : Nat) (filename : String)
    (attributes : List (String × List Byte)) (c : Client)
    (hctx : c.ctx.isDone = true) (hfuel : 0 < fuel) (hclosed : c.pipe.closed = none) :
    ∃ (c1 : Client) (err : GoError) (sent : List Frame),
      encoder fuel filename attributes c = some c1 ∧
      c1.errCh = c.errCh ++ [err] ∧ c1.pipe.closed = some (some err) ∧
      c1.file = c.file ∧
      c1.pipe.frames = c.pipe.frames ++ sent ∧
      (∀ f ∈ sent, f ≠ Frame.closing ∧ ∀ b, f ≠ Frame.data b) ∧
      (c.pipe.accepts = none → c.openErr = none →
        err = .wrap "failed to copy file data" errCancelled ∧
        sent = attributes.map (fun kv => Frame.field kv.1 kv.2)
          ++ [Frame.file "object" (filepathBase filename)]) := by
  obtain ⟨k, rfl⟩ : ∃ k, fuel = k + 1 := ⟨fuel - 1, by omega⟩
  obtain ⟨sent0, hs1, hs2, hs3⟩ := writeFields_frames attributes c.pipe
  have hok := writeFields_ok attributes c.pipe
  unfold encoder
  rcases hw : writeFields attributes c.pipe with ⟨_ | err, p1⟩
  · rw [hw] at hs1 hs2
    simp only at hs1 hs2 ⊢
    obtain ⟨hc, hput⟩ := Pipe.put_spec p1 (.file "object" (filepathBase filename))
    rcases hp : p1.put (.file "object" (filepathBase filename)) with ⟨_ | err, p2⟩
    · rw [hp] at hc hput
      simp only at hc hput ⊢
      have hfr : p2.frames = p1.frames ++ [.file "object" (filepathBase filename)] := by
        rcases hput with ⟨_, h⟩ | ⟨h, _⟩
        · exact h
        · exact absurd rfl h
      cases ho : c.openErr with
      | some err =>
        simp only
        have hcl : p2.closed = none := by rw [hc, hs2, hclosed]
        refine ⟨_, _, sent0 ++ [.file "object" (filepathBase filename)], rfl,
          (Client.fail_spec _ _ _ hcl).1, (Client.fail_spec _ _ _ hcl).2.1,
          (Client.fail_spec _ _ _ hcl).2.2.2, ?_, ?_, ?_⟩
        · rw [(Client.fail_spec _ _ _ hcl).2.2.1]
          show p2.frames = _
          rw [hfr, hs1, List.append_assoc]
        · intro f hf
          rcases List.mem_append.mp hf with h | h
          · exact hs3 f h
          · rw [List.mem_singleton] at h; subst h; simp
        · intro _ h; simp at h
      | none =>
        simp only
        rw [copyFileData_cancelled k { c with pipe := p2, openErr := none } hctx]
        simp only
        have hcl : p2.closed = none := by rw [hc, hs2, hclosed]
        refine ⟨_, _, sent0 ++ [.file "object" (filepathBase filename)], rfl,
          (Client.fail_spec _ _ _ hcl).1, (Client.fail_spec _ _ _ hcl).2.1,
          (Client.fail_spec _ _ _ hcl).2.2.2, ?_, ?_, ?_⟩
        · rw [(Client.fail_spec _ _ _ hcl).2.2.1]
          show p2.frames = _
          rw [hfr, hs1, List.append_assoc]
        · intro f hf
          rcases List.mem_append.mp hf with h | h
          · exact hs3 f h
          · rw [List.mem_singleton] at h; subst h; simp
        · intro ha _
          refine ⟨rfl, ?_⟩
          rw [hok ha] at hw
          have := congrArg (fun r => r.2.frames) hw
          simp only at this
          rw [hs1] at this
          rw [List.append_cancel_left this]
    · rw [hp] at hc hput
      simp only at hc hput ⊢
      have hfr : p2.frames = p1.frames := by
        rcases hput with ⟨h, _⟩ | ⟨_, h⟩
        · simp at h
        · exact h
      have hcl : p2.closed = none := by rw [hc, hs2, hclosed]
      refine ⟨_, _, sent0, rfl, (Client.fail_spec _ _ _ hcl).1, (Client.fail_spec _ _ _ hcl).2.1,
        (Client.fail_spec _ _ _ hcl).2.2.2, ?_, hs3, ?_⟩
      · rw [(Client.fail_spec _ _ _ hcl).2.2.1]
        show p2.frames = _
        rw [hfr, hs1]
      · intro ha _
        rw [hok ha] at hw
        have hacc : p1.accepts = none := by
          have := congrArg (fun r => r.2.accepts) hw
          simp only at this
          rw [← this, ha]
        simp [Pipe.put, hacc] at hp
  · rw [hw] at hs1 hs2
    simp only at hs1 hs2 ⊢
    have hcl : p1.closed = none := by rw [hs2, hclosed]
    refine ⟨_, _, sent0, rfl, (Client.fail_spec _ _ _ hcl).1, (Client.fail_spec _ _ _ hcl).2.1,
      (Client.fail_spec _ _ _ hcl).2.2.2, ?_, hs3, ?_⟩
    · rw [(Client.fail_spec _ _ _ hcl).2.2.1]
      show p1.frames = _
      rw [hs1]
    · intro ha _
      rw [hok ha] at hw
      simp at hw

/-- C8, at a concrete input: a file of three bytes with two attributes and a
context that is cancelled from the start. -/
theorem encoder_cancelled_witness :
    cancelledClient.ctx.isDone = true ∧
    ∃ (c1 : Client) (err : GoError) (sent : List Frame),
      encoder 8 "/tmp/hi.txt" [("a", [49]), ("b", [50])] cancelledClient = some c1 ∧
      c1.errCh = cancelledClient.errCh ++ [err] ∧ c1.pipe.closed = some (some err) ∧
      c1.file = cancelledClient.file ∧
      c1.pipe.frames = cancelledClient.pipe.frames ++ sent ∧
      (∀ f ∈ sent, f ≠ Frame.closing ∧ ∀ b, f ≠ Frame.data b) ∧
      (cancelledClient.pipe.accepts = none → cancelledClient.openErr = none →
        err = .wrap "failed to copy file data" errCancelled ∧
        sent = [("a", [49]), ("b", [50])].map (fun kv => Frame.field kv.1 kv.2)
          ++ [Frame.file "object" (filepathBase "/tmp/hi.txt")]) :=
  ⟨by decide, encoder_cancelled 8 "/tmp/hi.txt" [("a", [49]), ("b", [50])] cancelledClient
    (by decide) (by decide) (by decide)⟩

/-! ## Round trip -/

theorem clientCopy_ok (fuel : Nat) (pipe : Pipe) (ctx : Context) (file : ByteSource)
    (hfuel : file.size < fuel) (hctx : ctx.active = none) (hpipe : pipe.accepts = none)
    (hfile : file.final = .EOF) :
    ∃ res, ioCopy partWriter (readerWithProgressOf (ctxAwareReaderOf byteSourceReader)) fuel pipe
        (newReaderWithProgress [] (newCtxAwareReader ctx file)) = some res ∧
      res.err = none ∧
      ∃ chunks : List (List Byte),
        res.dst = { pipe with frames := pipe.frames ++ chunks.map Frame.data } ∧
        chunks.flatten = file.data := by
  refine ioCopyBuffer_reads partWriter (readerWithProgressOf (ctxAwareReaderOf byteSourceReader))
    (32 * 1024)
    (fun t s _ => s.wrappedReader.ctx.active = none ∧ s.wrappedReader.wrappedReader.final = .EOF ∧
      ∃ chunks : List (List Byte),
        t = { pipe with frames := pipe.frames ++ chunks.map Frame.data } ∧
        chunks.flatten ++ s.wrappedReader.wrappedReader.data = file.data)
    (fun e t _ _ => e = none ∧ ∃ chunks : List (List Byte),
        t = { pipe with frames := pipe.frames ++ chunks.map Frame.data } ∧
        chunks.flatten = file.data)
    (fun s => s.wrappedReader.wrappedReader.size) ?_ fuel pipe _ 0
    ⟨hctx, hfile, [], by simp, by simp [newReaderWithProgress, newCtxAwareReader]⟩ hfuel
  rintro t s w ⟨hc, hf, chunks, rfl, hjoin⟩
  have hd : s.wrappedReader.ctx.isDone = false := by simp [Context.isDone, hc]
  rw [(clientReader_Read s (32 * 1024)).2 hd]
  obtain ⟨r1, r2, _, _, r5⟩ := ByteSource.Read_spec s.wrappedReader.wrappedReader (32 * 1024)
  have hstep : ∃ chunks1 : List (List Byte),
      stepDst partWriter { pipe with frames := pipe.frames ++ chunks.map Frame.data }
          (s.wrappedReader.wrappedReader.Read (32 * 1024)).1
        = { pipe with frames := pipe.frames ++ chunks1.map Frame.data } ∧
      chunks1.flatten = chunks.flatten ++ (s.wrappedReader.wrappedReader.Read (32 * 1024)).1.data := by
    unfold stepDst
    split_ifs with hn
    · refine ⟨chunks ++ [(s.wrappedReader.wrappedReader.Read (32 * 1024)).1.data], ?_, by simp⟩
      simp [partWriter, Pipe.put, hpipe]
    · exact ⟨chunks, rfl, by rw [ReadResult.data_of_n_zero _ hn, List.append_nil]⟩
  obtain ⟨chunks1, hdst, hj1⟩ := hstep
  refine ⟨fun _ => by simp [partWriter, Pipe.put, hpipe, ReadResult.n], ?_⟩
  simp only
  rw [hdst]
  rcases r5 with ⟨he, hlt⟩ | ⟨he, hnil⟩
  · left
    refine ⟨he, hlt (by norm_num), by simp [Context.next, hc], r2.trans hf, chunks1, rfl, ?_⟩
    rw [hj1, List.append_assoc, r1, hjoin]
  · right
    refine ⟨_, he, by simp [hf], chunks1, rfl, ?_⟩
    rw [hj1, ← hjoin, ← r1, hnil, List.append_nil]

theorem filepathBase_ne_empty (path : String) : filepathBase path ≠ "" := by
  unfold filepathBase
  dsimp only
  split_ifs with h1 h2
  · decide
  · decide
  · intro h
    apply h2
    have := congrArg String.data h
    simpa using this

theorem encoder_ok (fuel : Nat) (filename : String) (attributes : List (String × List Byte))
    (c : Client) (hfuel : c.file.size < fuel) (hctx : c.ctx.active = none)
    (hpipe : c.pipe.accepts = none) (hclosed : c.pipe.closed = none)
    (hopen : c.openErr = none) (hfile : c.file.final = .EOF) :
    ∃ (c1 : Client) (chunks : List (List Byte)), encoder fuel filename attributes c = some c1 ∧
      c1.errCh = c.errCh ∧ c1.pipe.closed = some none ∧
      c1.pipe.frames = c.pipe.frames ++ attributes.map (fun kv => Frame.field kv.1 kv.2)
        ++ [Frame.file "object" (filepathBase filename)] ++ chunks.map Frame.data
        ++ [Frame.closing] ∧
      chunks.flatten = c.file.data := by
  obtain ⟨res, hcopy, herr, chunks, hdst, hjoin⟩ := clientCopy_ok fuel
    { c.pipe with frames := c.pipe.frames ++ attributes.map (fun kv => Frame.field kv.1 kv.2)
        ++ [Frame.file "object" (filepathBase filename)] }
    c.ctx c.file hfuel hctx hpipe hfile
  dsimp only at hcopy hdst
  rw [hpipe] at hcopy hdst
  simp only [encoder, writeFields_ok attributes c.pipe hpipe, Pipe.put, hpipe, hopen,
    copyFileData, hcopy, herr, hdst]
  refine ⟨_, chunks, rfl, rfl, ?_, ?_, hjoin⟩
  · simp [Pipe.Close, hclosed]
  · simp [Pipe.Close, hclosed]

theorem requestOf_contentType (d : Delivery) (boundary : String) (frames : List Frame) :
    stringsHasPrefix (requestOf d boundary frames).contentType "multipart/form-data" = true := by
  have h : ("multipart/form-data; boundary=" ++ boundary).toList
      = "multipart/form-data".toList ++ ("; boundary=".toList ++ boundary.toList) := by
    rw [String.toList, String.data_append, ← List.append_assoc]
    rfl
  simp only [stringsHasPrefix, requestOf, h]
  exact List.isPrefixOf_iff_prefix.mpr (List.prefix_append _ _)

theorem unquoteFrom_plain (c : Char) (l : List Char) (h1 : c ≠ quoteChar)
    (h2 : c ≠ backslashChar) : unquoteFrom false (c :: l) = c :: unquoteFrom false l := by
  simp [unquoteFrom, h1, h2]

theorem unquoteFrom_escapeChar (c : Char) (l : List Char) :
    unquoteFrom false (escapeChar c ++ l) = percentChar c ++ unquoteFrom false l := by
  unfold escapeChar percentChar
  by_cases hb : c = backslashChar
  · subst hb
    have h1 : backslashChar ≠ Char.ofNat 13 := by decide
    have h2 : backslashChar ≠ Char.ofNat 10 := by decide
    have h3 : backslashChar ≠ quoteChar := by decide
    have h4 : isTSpecial backslashChar = true := by decide
    simp [unquoteFrom, h1, h2, h3, h4]
  · by_cases hq : c = quoteChar
    · subst hq
      have h1 : quoteChar ≠ Char.ofNat 13 := by decide
      have h2 : quoteChar ≠ Char.ofNat 10 := by decide
      have h3 : backslashChar ≠ quoteChar := by decide
      have h4 : isTSpecial quoteChar = true := by decide
      simp [unquoteFrom, h1, h2, h3, h4, hb]
    · by_cases hr : c = Char.ofNat 13
      · subst hr
        simp only [hb, hq, if_false, if_true, List.cons_append, List.nil_append]
        rw [unquoteFrom_plain '%' _ (by decide) (by decide),
          unquoteFrom_plain '0' _ (by decide) (by decide),
          unquoteFrom_plain 'D' _ (by decide) (by decide)]
      · by_cases hn : c = Char.ofNat 10
        · subst hn
          simp only [hb, hq, hr, if_false, if_true, List.cons_append, List.nil_append]
          rw [unquoteFrom_plain '%' _ (by decide) (by decide),
            unquoteFrom_plain '0' _ (by decide) (by decide),
            unquoteFrom_plain 'A' _ (by decide) (by decide)]
        · simp only [hb, hq, hr, hn, if_false, List.cons_append, List.nil_append]
          exact unquoteFrom_plain c l hq hb

theorem unquote_escape (l : List Char) :
    unquote (l.flatMap escapeChar) = l.flatMap percentChar := by
  unfold unquote
  induction l with
  | nil => rfl
  | cons c l ih =>
    simp only [List.flatMap_cons]
    rw [unquoteFrom_escapeChar, ih]

theorem receivedName_eq (s : String) : receivedName s = String.mk (s.toList.flatMap percentChar) := by
  simp only [receivedName, escapeQuotes, String.toList]
  rw [unquote_escape]

theorem flatMap_percentChar_of_plain (l : List Char)
    (h : ∀ c ∈ l, c ≠ Char.ofNat 13 ∧ c ≠ Char.ofNat 10) : l.flatMap percentChar = l := by
  induction l with
  | nil => rfl
  | cons c l ih =>
    obtain ⟨h1, h2⟩ := h c (List.mem_cons_self _ _)
    simp only [List.flatMap_cons, percentChar, h1, h2, if_false, List.singleton_append]
    rw [ih (fun x hx => h x (List.mem_cons_of_mem _ hx))]

theorem percent_mem (l : List Char) (h : ¬ ∀ c ∈ l, c ≠ Char.ofNat 13 ∧ c ≠ Char.ofNat 10) :
    '%' ∈ l.flatMap percentChar := by
  push_neg at h
  obtain ⟨c, hc, hcr⟩ := h
  rw [List.mem_flatMap]
  refine ⟨c, hc, ?_⟩
  by_cases h13 : c = Char.ofNat 13
  · simp [percentChar, h13]
  · have h10 := hcr h13
    simp [percentChar, h13, h10]

theorem receivedName_object (k : String) (h : receivedName k = "object") : k = "object" := by
  rw [receivedName_eq] at h
  have hl : k.toList.flatMap percentChar = "object".toList := congrArg String.data h
  by_cases hp : ∀ c ∈ k.toList, c ≠ Char.ofNat 13 ∧ c ≠ Char.ofNat 10
  · rw [flatMap_percentChar_of_plain _ hp] at hl
    exact String.ext hl
  · have := percent_mem _ hp
    rw [hl] at this
    exact absurd this (by decide)

theorem receivedName_ne_empty (s : String) (h : s ≠ "") : receivedName s ≠ "" := by
  rw [receivedName_eq]
  intro he
  have hl : s.toList.flatMap percentChar = [] := congrArg String.data he
  apply h
  apply String.ext
  cases hs : s.toList with
  | nil => exact hs
  | cons c l =>
    rw [hs, List.flatMap_cons] at hl
    have : percentChar c ≠ [] := by
      unfold percentChar
      split_ifs <;> simp
    exact absurd (List.append_eq_nil.mp hl).1 this

theorem requestOf_multipartReader (d : Delivery) (boundary : String) (frames : List Frame)
    (h : tokenBoundary boundary = true) :
    requestOf d boundary frames
      = ⟨(requestOf d boundary frames).contentType, .ok (decodeFrames d frames [] none)⟩ := by
  simp [requestOf, h]

theorem decodeFrames_fields (d : Delivery) (fuel : Nat) (attributes : List (String × List Byte))
    (rest : List Frame)
    (hattrs : ∀ kv ∈ attributes, kv.1 ≠ "object")
    (hkeys : ∀ kv ∈ attributes, headerAccepted d.headerLimit (fieldHeader kv.1) = true)
    (hnet : ∀ i, ∀ kv ∈ attributes, kv.2.length + (d.plan i).length < fuel) :
    ∀ done : List Part, ∃ ps : List Part,
      decodeFrames d (attributes.map (fun kv => Frame.field kv.1 kv.2) ++ rest) done none
        = decodeFrames d rest (done ++ ps) none ∧
      ∀ p ∈ ps, p.formName ≠ "object" ∧ p.body.final = .EOF ∧ p.body.size < fuel := by
  induction attributes with
  | nil => intro done; exact ⟨[], by simp, by simp⟩
  | cons kv tail ih =>
    intro done
    obtain ⟨ps, h1, h2⟩ := ih (fun x hx => hattrs x (List.mem_cons_of_mem _ hx))
      (fun x hx => hkeys x (List.mem_cons_of_mem _ hx))
      (fun i x hx => hnet i x (List.mem_cons_of_mem _ hx))
      (done ++ [d.part done.length (receivedName kv.1) "" kv.2 .EOF])
    refine ⟨d.part done.length (receivedName kv.1) "" kv.2 .EOF :: ps, ?_, ?_⟩
    · simp only [List.map_cons, List.cons_append, decodeFrames, Delivery.flush, List.append_eq,
        hkeys kv (List.mem_cons_self _ _), if_true]
      rw [h1]
      simp
    · intro p hp
      rcases List.mem_cons.mp hp with rfl | hp
      · exact ⟨fun h => hattrs kv (List.mem_cons_self _ _) (receivedName_object _ h), rfl,
          hnet done.length kv (List.mem_cons_self _ _)⟩
      · exact h2 p hp

theorem decodeFrames_data (d : Delivery) (done : List Part) (n f : String)
    (chunks : List (List Byte)) :
    ∀ b : List Byte,
      decodeFrames d (chunks.map Frame.data ++ [Frame.closing]) done (some (n, f, b))
        = ⟨done ++ [d.part done.length n f (b ++ chunks.flatten) .EOF], .EOF⟩ := by
  induction chunks with
  | nil => intro b; simp [decodeFrames, Delivery.flush]
  | cons ch tail ih =>
    intro b
    simp only [List.map_cons, List.cons_append, decodeFrames, List.append_eq]
    rw [ih (b ++ ch)]
    simp

/-- C1 fails on the code at this input: a file of three bytes named
`/tmp/a\x01b`, whose base name `a\x01b` is not empty, no attribute, a context
that is never cancelled and no I/O error.  The encoder succeeds, but the
header of the object part carries the control byte `0x01`, `NextPart` refuses
it, and the handler answers 400 and stores nothing. -/
theorem upload_control_byte_name_refused :
    filepathBase controlByteName ≠ "" ∧
    (encoder 8 controlByteName [] sampleClient).map (fun c1 => (c1.errCh, c1.pipe.closed))
      = some ([], some none) ∧
    ((encoder 8 controlByteName [] sampleClient).bind (fun c1 =>
        uploadHandler 8 (requestOf sampleDelivery sampleBoundary c1.pipe.frames)
          (Server.start healthyFs 0))).map (fun sv => (sv.w.seen, sv.fs))
      = some (400, healthyFs) := by
  decide

/-- C1, amended: for every file content (the empty one included), every file
name and every list of attributes without the key `object`, such that the
multipart reader accepts the part header of every key and of the base name
(no control byte other than tab once the writer has escaped the name, and a
header within the reader's limit), and for every granularity of the reads on
both sides: when nothing fails on the client (the context is never cancelled,
the pipe takes every write, the file opens and reads to `io.EOF`) and the
destination can be created and written, the encoder hands to the pipe one
field per attribute, then the header of one file part named `object` whose
file name is the base name, then data frames that make up the file, then the
closing boundary; and `uploadHandler`, fed these frames, answers 200 and
leaves exactly the bytes of the file, in order, in the destination. -/
theorem upload_round_trip (fuel : Nat) (filename : String)
    (attributes : List (String × List Byte)) (c : Client) (d : Delivery) (boundary : String)
    (fs : FileSystem) (delay : Int)
    (hattrs : ∀ kv ∈ attributes, kv.1 ≠ "object")
    (hkeys : ∀ kv ∈ attributes, headerAccepted d.headerLimit (fieldHeader kv.1) = true)
    (hname : headerAccepted d.headerLimit (fileHeader "object" (filepathBase filename)) = true)
    (hboundary : tokenBoundary boundary = true)
    (hctx : c.ctx.active = none)
    (hpipe : c.pipe = ⟨[], none, none⟩)
    (hopen : c.openErr = none) (hfile : c.file.final = .EOF)
    (hcreate : fs.createErr = none) (hwrite : fs.writable = none)
    (hfuel : c.file.size < fuel)
    (hnet : ∀ i, c.file.data.length + (d.plan i).length < fuel ∧
      ∀ kv ∈ attributes, kv.2.length + (d.plan i).length < fuel) :
    ∃ (c1 : Client) (sv : Server) (chunks : List (List Byte)),
      encoder fuel filename attributes c = some c1 ∧
      c1.errCh = c.errCh ∧ c1.pipe.closed = some none ∧
      c1.pipe.frames = attributes.map (fun kv => Frame.field kv.1 kv.2)
        ++ [Frame.file "object" (filepathBase filename)] ++ chunks.map Frame.data
        ++ [Frame.closing] ∧
      chunks.flatten = c.file.data ∧
      uploadHandler fuel (requestOf d boundary c1.pipe.frames) (Server.start fs delay) = some sv ∧
      sv.w.seen = 200 ∧ sv.fs.dest = some c.file.data := by
  obtain ⟨c1, chunks, henc, herr, hclosed, hframes, hjoin⟩ := encoder_ok fuel filename attributes c
    hfuel hctx (by rw [hpipe]) (by rw [hpipe]) hopen hfile
  rw [hpipe] at hframes
  simp only [List.nil_append] at hframes
  obtain ⟨ps, hps, hprops⟩ := decodeFrames_fields d fuel attributes
    ([Frame.file "object" (filepathBase filename)] ++ chunks.map Frame.data ++ [Frame.closing])
    hattrs hkeys (fun i => (hnet i).2) []
  have hobj : receivedName "object" = "object" := by decide
  have hdec : decodeFrames d c1.pipe.frames [] none
      = ⟨ps ++ [d.part ps.length "object"
          (partFileName (receivedName (filepathBase filename))) c.file.data .EOF], .EOF⟩ := by
    rw [hframes]
    simp only [List.nil_append, List.append_assoc] at hps ⊢
    rw [hps]
    simp only [List.singleton_append, decodeFrames, Delivery.flush, List.append_eq,
      List.nil_append, hname, if_true, hobj]
    rw [decodeFrames_data, hjoin]
    simp
  have hfn : partFileName (receivedName (filepathBase filename)) ≠ "" := by
    have h := receivedName_ne_empty _ (filepathBase_ne_empty filename)
    simp only [partFileName, h, if_false]
    exact filepathBase_ne_empty _
  have hparts : ∀ p ∈ ps ++ [d.part ps.length "object"
        (partFileName (receivedName (filepathBase filename))) c.file.data .EOF],
      p.body.final = .EOF ∧ p.body.size < fuel ∧ (p.formName = "object" → p.fileName ≠ "") := by
    intro p hp
    rcases List.mem_append.mp hp with h | h
    · obtain ⟨h1, h2, h3⟩ := hprops p h
      exact ⟨h2, h3, fun h => absurd h h1⟩
    · rw [List.mem_singleton] at h
      subst h
      exact ⟨rfl, (hnet ps.length).1, fun _ => hfn⟩
  obtain ⟨sv, h1, h2, h3⟩ := uploadLoop_readable fuel _ "" []
    { w := ⟨none, ""⟩, fs := fs, injectedUploadDelay := delay, slept := 0, readers := 1,
      nextParts := 0, attributes := [] } hparts hcreate hwrite
  refine ⟨c1, sv, chunks, henc, herr, hclosed, hframes, hjoin, ?_, ?_, ?_⟩
  · have hreq := uploadHandler_multipart fuel (requestOf d boundary c1.pipe.frames).contentType
      (decodeFrames d c1.pipe.frames [] none) fs delay (requestOf_contentType d boundary _)
    rw [requestOf_multipartReader d boundary _ hboundary, hreq, hdec]
    exact h1
  · have hne : objectParts (ps ++ [d.part ps.length "object"
        (partFileName (receivedName (filepathBase filename))) c.file.data .EOF]) ≠ [] := by
      simp [objectParts, List.filter_append, Delivery.part]
    simp [ResponseWriter.seen, h3, hne]
  · rw [h2]
    simp [storedAfter, List.foldl_append, Delivery.part]

/-- C1, amended, at a concrete input: a file of three bytes named
`/tmp/hi.txt` with two attributes.  The frames handed to the pipe are the two
fields, the header of the object part with file name `hi.txt`, the data in two
frames, and the closing boundary. -/
theorem upload_round_trip_witness :
    (encoder 8 "/tmp/hi.txt" [("a", [49]), ("b", [50])] sampleClient).map
        (fun c1 => c1.pipe.frames)
      = some [Frame.field "a" [49], Frame.field "b" [50], Frame.file "object" "hi.txt",
          Frame.data [104, 105], Frame.data [33], Frame.closing] ∧
    ∃ (c1 : Client) (sv : Server) (chunks : List (List Byte)),
      encoder 8 "/tmp/hi.txt" [("a", [49]), ("b", [50])] sampleClient = some c1 ∧
      c1.errCh = sampleClient.errCh ∧ c1.pipe.closed = some none ∧
      c1.pipe.frames = [("a", [49]), ("b", [50])].map (fun kv => Frame.field kv.1 kv.2)
        ++ [Frame.file "object" (filepathBase "/tmp/hi.txt")] ++ chunks.map Frame.data
        ++ [Frame.closing] ∧
      chunks.flatten = sampleClient.file.data ∧
      uploadHandler 8 (requestOf sampleDelivery sampleBoundary c1.pipe.frames)
        (Server.start healthyFs 0) = some sv ∧
      sv.w.seen = 200 ∧ sv.fs.dest = some sampleClient.file.data :=
  ⟨by decide,
    upload_round_trip 8 "/tmp/hi.txt" [("a", [49]), ("b", [50])] sampleClient sampleDelivery
      sampleBoundary healthyFs 0 (by decide) (by decide) (by decide) (by decide) (by decide)
      (by decide) (by decide) (by decide) (by decide) (by decide) (by decide)
      (fun _ => by simp [sampleClient, sampleFile, sampleDelivery])⟩

end Transfer
